import Mathlib

/-! NIP-29 group state (package nip29 of go-nostr), shallow embedding

The Go source is `src/nip29/group.go`.  A `Group` is a mutable aggregate with three
independently versioned facets (metadata, admins, members).  The three `MergeIn…Event`
methods mutate the receiver through a pointer and return an `error`; here each of them is a
pure function returning the state of the receiver after the call together with the
returned error (`none` for Go's `nil`).

Modelling conventions
* `nostr.Timestamp` (an `int64`) and event kinds (`int`) are `Int`; they are only ever
  compared, never combined arithmetically, so no wrap-around can occur.
* `nostr.Tag` is `[]string`, `nostr.Tags` is `[]Tag`: lists.
* `map[string]*Role` is an association list with first-match lookup and replace-or-append
  store; a `*Role` is an `Option Role` (`none` is the nil pointer).  Each key owns its
  `Role` (no two keys share a pointer), and the map of a `Group` is allocated, as it is for
  every value obtained from `NewGroup`.
* `map[Permission]struct{}` is an `Option (List Permission)`: `none` is the nil map and the
  list holds each permission at most once.
* Go's `range` over a map visits the entries in an unspecified order; the projections
  visit them in list order.
-/

namespace Nip29

abbrev Timestamp := Int

abbrev Tag := List String

abbrev Tags := List Tag

abbrev Permission := String

/-- Fields of `nostr.Event` that package nip29 reads or writes. -/
structure Event where
  Kind : Int
  CreatedAt : Timestamp
  Content : String
  Tags : Tags
deriving DecidableEq, Repr

/-- The type `Role` of package nip29: a display name and a permission set. -/
structure Role where
  Name : String
  Permissions : Option (List Permission)
deriving DecidableEq, Repr

abbrev MemberMap := List (String × Option Role)

/-- The struct `Group` of `group.go`. -/
structure Group where
  ID : String
  Name : String
  Picture : String
  About : String
  Members : MemberMap
  Private : Bool
  Closed : Bool
  LastMetadataUpdate : Timestamp
  LastAdminsUpdate : Timestamp
  LastMembersUpdate : Timestamp
deriving DecidableEq, Repr

/-- The two `fmt.Errorf` values of the merges:
`"expected kind %d, got %d"` and `"event is older than our last update (%d vs %d)"`. -/
inductive MergeError where
  | kindMismatch (expected got : Int)
  | staleUpdate (evt stored : Timestamp)
deriving DecidableEq, Repr

/-- Modelled from the spec: the group-metadata kind, a constant of package nostr that is not
under src/ (the spec leaves the kinds to the surrounding protocol; 39000 is the NIP-29
number).  No proof depends on the value. -/
def KindSimpleGroupMetadata : Int := 39000

/-- Modelled from the spec: the group-admins kind, a constant of package nostr that is not
under src/.  No proof depends on the value. -/
def KindSimpleGroupAdmins : Int := 39001

/-- Modelled from the spec: the group-members kind, a constant of package nostr that is not
under src/.  No proof depends on the value. -/
def KindSimpleGroupMembers : Int := 39002

/-- Modelled from the spec: `EmptyRole` of package nip29, whose declaration is not under
src/; the spec calls it the null/empty Role marker of an ordinary member, and
`ToAdminsEvent` tells admins apart by `role != nil`. -/
def EmptyRole : Option Role := none

/-- One hexadecimal digit. -/
def isHexDigit (c : Char) : Bool :=
  decide (c ∈ "0123456789abcdefABCDEF".toList)

/-- Modelled from the spec: `nostr.IsValid32ByteHex`, a helper that is not under src/; the
spec asks for a valid 32-byte hex string (right length, hex only), that is 64 hex digits.
The proofs use it as a black box. -/
def IsValid32ByteHex (thing : String) : Bool :=
  thing.toList.length == 64 && thing.toList.all isHexDigit

/-- Whether a tag matches a pattern of `GetFirst`: the tag has at least as many entries as
the pattern, and each entry equals the pattern entry at its position, an empty pattern entry
standing for any value. -/
def tagMatches : Tag → Tag → Bool
  | _, [] => true
  | [], _ :: _ => false
  | t :: ts, p :: ps => (p == "" || t == p) && tagMatches ts ps

/-- Modelled from the spec: `Tags.GetFirst` of package nostr, a helper that is not under
src/; the spec has each single-value field read from the first occurrence of its tag
(pattern `["name", ""]`: first entry `name`, at least two entries) and each flag from the
presence of its marker tag (pattern `["private"]`). -/
def GetFirst (tags : Tags) (pat : Tag) : Option Tag :=
  tags.find? (fun tag => tagMatches tag pat)

/-- The comma-ok lookup `v, exists := m[k]`: `none` when the key is absent. -/
def mapLookup : MemberMap → String → Option (Option Role)
  | [], _ => none
  | (k, v) :: rest, key => if k = key then some v else mapLookup rest key

/-- The plain index expression `m[k]`: the nil pointer when the key is absent. -/
def mapIndex (m : MemberMap) (key : String) : Option Role :=
  (mapLookup m key).getD none

/-- The assignment `m[k] = v`. -/
def mapStore : MemberMap → String → Option Role → MemberMap
  | [], key, v => [(key, v)]
  | (k, w) :: rest, key, v =>
    if k = key then (k, v) :: rest else (k, w) :: mapStore rest key v

/-- The keys of a member map. -/
def mapKeys (m : MemberMap) : List String := m.map Prod.fst

/-- The statement `set[perm] = struct{}{}` on a permission set. -/
def addPermission (perms : List Permission) (perm : Permission) : List Permission :=
  if perm ∈ perms then perms else perms ++ [perm]

/-- `NewGroup` (group.go:23). -/
def NewGroup (id : String) : Group :=
  { ID := id, Name := id, Picture := "", About := "", Members := [],
    Private := false, Closed := false,
    LastMetadataUpdate := 0, LastAdminsUpdate := 0, LastMembersUpdate := 0 }

/-- `Group.ToMetadataEvent` (group.go:31). -/
def ToMetadataEvent (group : Group) : Event :=
  let tags : Tags := [["d", group.ID]]
  let tags := if group.Name ≠ "" then tags ++ [["name", group.Name]] else tags
  let tags := if group.About ≠ "" then tags ++ [["about", group.Name]] else tags
  let tags := if group.Picture ≠ "" then tags ++ [["picture", group.Picture]] else tags
  let tags := if group.Private then tags ++ [["private"]] else tags ++ [["public"]]
  let tags := if group.Closed then tags ++ [["closed"]] else tags ++ [["open"]]
  { Kind := KindSimpleGroupMetadata, CreatedAt := group.LastMetadataUpdate,
    Content := group.About, Tags := tags }

/-- The body of the loop of `ToAdminsEvent` (group.go:73-85) for one map entry. -/
def adminTag (tags : Tags) (entry : String × Option Role) : Tags :=
  match entry.2 with
  | some role => tags ++ [["p", entry.1, role.Name] ++ role.Permissions.getD []]
  | none => tags

/-- `Group.ToAdminsEvent` (group.go:65). -/
def ToAdminsEvent (group : Group) : Event :=
  { Kind := KindSimpleGroupAdmins, CreatedAt := group.LastAdminsUpdate, Content := "",
    Tags := group.Members.foldl adminTag [["d", group.ID]] }

/-- `Group.ToMembersEvent` (group.go:90). -/
def ToMembersEvent (group : Group) : Event :=
  { Kind := KindSimpleGroupMembers, CreatedAt := group.LastMembersUpdate, Content := "",
    Tags := group.Members.foldl (fun tags entry => tags ++ [["p", entry.1]]) [["d", group.ID]] }

/-- `Group.MergeInMetadataEvent` (group.go:106): the receiver after the call and the
returned error. -/
def MergeInMetadataEvent (group : Group) (evt : Event) : Group × Option MergeError :=
  if evt.Kind ≠ KindSimpleGroupMetadata then
    (group, some (.kindMismatch KindSimpleGroupMetadata evt.Kind))
  else if evt.CreatedAt < group.LastMetadataUpdate then
    (group, some (.staleUpdate evt.CreatedAt group.LastMetadataUpdate))
  else
    let group := { group with LastMetadataUpdate := evt.CreatedAt }
    let group := { group with Name := group.ID }
    let group := match GetFirst evt.Tags ["name", ""] with
      | some tag => { group with Name := tag.getD 1 "" }
      | none => group
    let group := match GetFirst evt.Tags ["about", ""] with
      | some tag => { group with About := tag.getD 1 "" }
      | none => group
    let group := match GetFirst evt.Tags ["picture", ""] with
      | some tag => { group with Picture := tag.getD 1 "" }
      | none => group
    let group := match GetFirst evt.Tags ["private"] with
      | some _ => { group with Private := true }
      | none => group
    let group := match GetFirst evt.Tags ["closed"] with
      | some _ => { group with Closed := true }
      | none => group
    (group, none)

/-- The body of the loop of `MergeInAdminsEvent` (group.go:146-168) for one tag. -/
def mergeAdminsTag (members : MemberMap) (tag : Tag) : MemberMap :=
  match tag with
  | t0 :: t1 :: t2 :: rest =>
    if t0 ≠ "p" then members
    else if !IsValid32ByteHex t1 then members
    else
      let role : Role := match mapIndex members t1 with
        | some role => role
        | none => { Name := t2, Permissions := none }
      let perms : List Permission := match role.Permissions with
        | some perms => perms
        | none => []
      mapStore members t1 (some { role with Permissions := some ((t2 :: rest).foldl addPermission perms) })
  | _ => members

/-- `Group.MergeInAdminsEvent` (group.go:137): the receiver after the call and the returned
error. -/
def MergeInAdminsEvent (group : Group) (evt : Event) : Group × Option MergeError :=
  if evt.Kind ≠ KindSimpleGroupAdmins then
    (group, some (.kindMismatch KindSimpleGroupAdmins evt.Kind))
  else if evt.CreatedAt < group.LastAdminsUpdate then
    (group, some (.staleUpdate evt.CreatedAt group.LastAdminsUpdate))
  else
    let group := { group with LastAdminsUpdate := evt.CreatedAt }
    ({ group with Members := evt.Tags.foldl mergeAdminsTag group.Members }, none)

/-- The body of the loop of `MergeInMembersEvent` (group.go:182-197) for one tag. -/
def mergeMembersTag (members : MemberMap) (tag : Tag) : MemberMap :=
  match tag with
  | t0 :: t1 :: _ =>
    if t0 ≠ "p" then members
    else if !IsValid32ByteHex t1 then members
    else
      match mapLookup members t1 with
      | some _ => members
      | none => mapStore members t1 EmptyRole
  | _ => members

/-- `Group.MergeInMembersEvent` (group.go:173): the receiver after the call and the
returned error. -/
def MergeInMembersEvent (group : Group) (evt : Event) : Group × Option MergeError :=
  if evt.Kind ≠ KindSimpleGroupMembers then
    (group, some (.kindMismatch KindSimpleGroupMembers evt.Kind))
  else if evt.CreatedAt < group.LastMembersUpdate then
    (group, some (.staleUpdate evt.CreatedAt group.LastMembersUpdate))
  else
    let group := { group with LastMembersUpdate := evt.CreatedAt }
    ({ group with Members := evt.Tags.foldl mergeMembersTag group.Members }, none)

/-- A tag that qualifies for the members merge and names `member`: at least 2 entries,
first entry `p`, second entry `member`, a valid 32-byte hex identifier. -/
def namesMember (tag : Tag) (member : String) : Bool :=
  decide (2 ≤ tag.length) && tag[0]? == some "p" && tag[1]? == some member &&
    IsValid32ByteHex member

/-- A tag that qualifies for the admins merge and names `member`: at least 3 entries,
first entry `p`, second entry `member`, a valid 32-byte hex identifier. -/
def namesAdmin (tag : Tag) (member : String) : Bool :=
  decide (3 ≤ tag.length) && tag[0]? == some "p" && tag[1]? == some member &&
    IsValid32ByteHex member

/-- The permission set that `member` holds in a member map (empty without a Role). -/
def permissionsOf (m : MemberMap) (member : String) : List Permission :=
  match mapIndex m member with
  | some role => role.Permissions.getD []
  | none => []

/-- The Role name of `member` in a member map, `none` for an ordinary member and for a
stranger. -/
def roleNameOf (m : MemberMap) (member : String) : Option String :=
  (mapIndex m member).map Role.Name

/-! ### Sample data -/

/-- A valid member identifier. -/
def memberA : String := "aaaaaaaaaaaaaaaaaaaaaaaaaaaaaaaaaaaaaaaaaaaaaaaaaaaaaaaaaaaaaaaa"

/-- A second valid member identifier. -/
def memberB : String := "bbbbbbbbbbbbbbbbbbbbbbbbbbbbbbbbbbbbbbbbbbbbbbbbbbbbbbbbbbbbbbbb"

/-- A group whose three facets were last updated at time 100. -/
def sampleGroup : Group :=
  { ID := "g1", Name := "Test", Picture := "", About := "",
    Members := [(memberA, some { Name := "Alice", Permissions := some ["manage"] })],
    Private := true, Closed := false,
    LastMetadataUpdate := 100, LastAdminsUpdate := 100, LastMembersUpdate := 100 }

/-- A metadata event stamped 50. -/
def metadataEventAt50 : Event :=
  { Kind := KindSimpleGroupMetadata, CreatedAt := 50, Content := "",
    Tags := [["d", "g1"], ["name", "Old"]] }

/-- An admins event stamped 50. -/
def adminsEventAt50 : Event :=
  { Kind := KindSimpleGroupAdmins, CreatedAt := 50, Content := "",
    Tags := [["d", "g1"], ["p", memberB, "Bob", "manage"]] }

/-- A members event stamped 50. -/
def membersEventAt50 : Event :=
  { Kind := KindSimpleGroupMembers, CreatedAt := 50, Content := "",
    Tags := [["d", "g1"], ["p", memberB]] }

/-- A metadata event stamped 100. -/
def metadataEventAt100 : Event :=
  { Kind := KindSimpleGroupMetadata, CreatedAt := 100, Content := "",
    Tags := [["d", "g1"], ["name", "Test"], ["private"]] }

/-- An admins event stamped 100. -/
def adminsEventAt100 : Event :=
  { Kind := KindSimpleGroupAdmins, CreatedAt := 100, Content := "",
    Tags := [["d", "g1"], ["p", memberB, "Bob", "manage"]] }

/-- A members event stamped 100. -/
def membersEventAt100 : Event :=
  { Kind := KindSimpleGroupMembers, CreatedAt := 100, Content := "",
    Tags := [["d", "g1"], ["p", memberB]] }

/-- The admins event of the scenario: stamped 10, makes `memberA` admin Alice with
permission manage. -/
def aliceAdminsEvent : Event :=
  { Kind := KindSimpleGroupAdmins, CreatedAt := 10, Content := "",
    Tags := [["d", "g1"], ["p", memberA, "Alice", "manage"]] }

/-- The members event of the scenario: stamped 5, lists `memberA` and `memberB`. -/
def rosterEvent : Event :=
  { Kind := KindSimpleGroupMembers, CreatedAt := 5, Content := "",
    Tags := [["d", "g1"], ["p", memberA], ["p", memberB]] }

/-- An admins event whose member tags are all malformed: a non-hex identifier, a short
identifier, a tag that is too short and a tag that does not start with `p`. -/
def noisyAdminsEvent : Event :=
  { Kind := KindSimpleGroupAdmins, CreatedAt := 200, Content := "",
    Tags := [["p", "zzzzzzzzzzzzzzzzzzzzzzzzzzzzzzzzzzzzzzzzzzzzzzzzzzzzzzzzzzzzzzzz", "Eve", "manage"],
      ["p", "abcd", "Eve"], ["p", memberB], ["e", memberB, "Bob"]] }

/-- An admins event with a single member tag of exactly three entries. -/
def bobAdminsEvent : Event :=
  { Kind := KindSimpleGroupAdmins, CreatedAt := 10, Content := "",
    Tags := [["d", "g1"], ["p", memberB, "Bob"]] }

/-- An admins event stamped 10 that grants `memberA` permission A. -/
def grantEventA : Event :=
  { Kind := KindSimpleGroupAdmins, CreatedAt := 10, Content := "",
    Tags := [["d", "g1"], ["p", memberA, "Alice", "A"]] }

/-- An admins event stamped 20 that lists `memberA` with permission B only. -/
def grantEventB : Event :=
  { Kind := KindSimpleGroupAdmins, CreatedAt := 20, Content := "",
    Tags := [["d", "g1"], ["p", memberA, "Alice", "B"]] }

/-- An admins event naming `memberA` twice, first as Alice and then as Bob. -/
def renamingEvent : Event :=
  { Kind := KindSimpleGroupAdmins, CreatedAt := 10, Content := "",
    Tags := [["d", "g1"], ["p", memberA, "Alice"], ["p", memberA, "Bob"]] }

/-- First step of the round trip: the metadata projection of `group` merged into
`NewGroup group.ID`. -/
def rebuildMetadata (group : Group) : Group × Option MergeError :=
  MergeInMetadataEvent (NewGroup group.ID) (ToMetadataEvent group)

/-- Second step of the round trip: the admins projection of `group` merged next. -/
def rebuildAdmins (group : Group) : Group × Option MergeError :=
  MergeInAdminsEvent (rebuildMetadata group).1 (ToAdminsEvent group)

/-- Third step of the round trip: the members projection of `group` merged last. -/
def rebuildMembers (group : Group) : Group × Option MergeError :=
  MergeInMembersEvent (rebuildAdmins group).1 (ToMembersEvent group)

/-- A group with an empty Name and a non-empty ID. -/
def namelessGroup : Group := { NewGroup "g1" with Name := "" }

/-- A group with an admin, an ordinary member and every display field set. -/
def fullGroup : Group :=
  { ID := "g1", Name := "Test", Picture := "pic.png", About := "about us",
    Members := [(memberA, some { Name := "Alice", Permissions := some ["manage"] }),
      (memberB, EmptyRole)],
    Private := true, Closed := false,
    LastMetadataUpdate := 100, LastAdminsUpdate := 10, LastMembersUpdate := 5 }

/-! ### Tag shapes of the claims -/

/-- A single-value tag for `name`: at least two entries, the first of which is `name`. -/
def isValueTag (name : String) (tag : Tag) : Bool :=
  decide (2 ≤ tag.length) && tag[0]? == some name

/-- A tag whose first entry is `name`, of any length; for `private` and `closed`, the
marker tag. -/
def isMarkerTag (name : String) (tag : Tag) : Bool :=
  tag[0]? == some name

/-- The tag that the admins projection owes to one entry of Members: none for the nil Role,
and for an admin `p`, the identifier, the Role name and then the permissions. -/
def adminTagOf (entry : String × Option Role) : Option Tag :=
  entry.2.map (fun role => ["p", entry.1, role.Name] ++ role.Permissions.getD [])

/-- The group of the metadata scenario: only the ID is set. -/
def bareGroup : Group :=
  { ID := "g1", Name := "", Picture := "", About := "", Members := [],
    Private := false, Closed := false,
    LastMetadataUpdate := 0, LastAdminsUpdate := 0, LastMembersUpdate := 0 }

/-- A metadata event stamped 100 that carries the `public` and `open` tags and neither an
`about` nor a `picture` tag. -/
def publicEvent : Event :=
  { Kind := KindSimpleGroupMetadata, CreatedAt := 100, Content := "",
    Tags := [["d", "g1"], ["name", "Test"], ["public"], ["open"]] }

/-- A private and closed group. -/
def closedGroup : Group :=
  { ID := "g1", Name := "Test", Picture := "pic.png", About := "about us", Members := [],
    Private := true, Closed := true,
    LastMetadataUpdate := 100, LastAdminsUpdate := 0, LastMembersUpdate := 0 }

end Nip29

/-! Package nip31 (`src/nip31/nip31.go`) -/

namespace Nip31

/-- The loop of `GetAlt` (nip31.go:6-10) over the tags still to visit. -/
def getAltFrom : Nip29.Tags → String
  | [] => ""
  | tag :: rest =>
    if 2 ≤ tag.length ∧ tag.getD 0 "" = "alt" then tag.getD 1 "" else getAltFrom rest

/-- `GetAlt` (nip31.go:5). -/
def GetAlt (event : Nip29.Event) : String :=
  getAltFrom event.Tags

end Nip31

namespace Nip29

theorem metadata_accepted (group : Group) (evt : Event)
    (hk : evt.Kind = KindSimpleGroupMetadata) (ht : group.LastMetadataUpdate ≤ evt.CreatedAt) :
    MergeInMetadataEvent group evt =
      ({ group with
          LastMetadataUpdate := evt.CreatedAt
          Name := ((GetFirst evt.Tags ["name", ""]).map (fun tag => tag.getD 1 "")).getD group.ID
          About := ((GetFirst evt.Tags ["about", ""]).map (fun tag => tag.getD 1 "")).getD group.About
          Picture :=
            ((GetFirst evt.Tags ["picture", ""]).map (fun tag => tag.getD 1 "")).getD group.Picture
          Private := group.Private || (GetFirst evt.Tags ["private"]).isSome
          Closed := group.Closed || (GetFirst evt.Tags ["closed"]).isSome }, none) := by
  have ht2 : ¬ evt.CreatedAt < group.LastMetadataUpdate := not_lt.mpr ht
  simp only [MergeInMetadataEvent, hk, ht2, ne_eq, not_true_eq_false, if_false]
  cases GetFirst evt.Tags ["name", ""] <;> cases GetFirst evt.Tags ["about", ""] <;>
    cases GetFirst evt.Tags ["picture", ""] <;> cases GetFirst evt.Tags ["private"] <;>
    cases GetFirst evt.Tags ["closed"] <;> simp

theorem admins_accepted (group : Group) (evt : Event)
    (hk : evt.Kind = KindSimpleGroupAdmins) (ht : group.LastAdminsUpdate ≤ evt.CreatedAt) :
    MergeInAdminsEvent group evt =
      ({ group with
          LastAdminsUpdate := evt.CreatedAt
          Members := evt.Tags.foldl mergeAdminsTag group.Members }, none) := by
  have ht2 : ¬ evt.CreatedAt < group.LastAdminsUpdate := not_lt.mpr ht
  simp [MergeInAdminsEvent, hk, ht2]

theorem members_accepted (group : Group) (evt : Event)
    (hk : evt.Kind = KindSimpleGroupMembers) (ht : group.LastMembersUpdate ≤ evt.CreatedAt) :
    MergeInMembersEvent group evt =
      ({ group with
          LastMembersUpdate := evt.CreatedAt
          Members := evt.Tags.foldl mergeMembersTag group.Members }, none) := by
  have ht2 : ¬ evt.CreatedAt < group.LastMembersUpdate := not_lt.mpr ht
  simp [MergeInMembersEvent, hk, ht2]

theorem metadata_wrong_kind (group : Group) (evt : Event)
    (hk : evt.Kind ≠ KindSimpleGroupMetadata) :
    MergeInMetadataEvent group evt =
      (group, some (.kindMismatch KindSimpleGroupMetadata evt.Kind)) := by
  simp [MergeInMetadataEvent, hk]

theorem admins_wrong_kind (group : Group) (evt : Event)
    (hk : evt.Kind ≠ KindSimpleGroupAdmins) :
    MergeInAdminsEvent group evt =
      (group, some (.kindMismatch KindSimpleGroupAdmins evt.Kind)) := by
  simp [MergeInAdminsEvent, hk]

theorem members_wrong_kind (group : Group) (evt : Event)
    (hk : evt.Kind ≠ KindSimpleGroupMembers) :
    MergeInMembersEvent group evt =
      (group, some (.kindMismatch KindSimpleGroupMembers evt.Kind)) := by
  simp [MergeInMembersEvent, hk]

theorem metadata_stale (group : Group) (evt : Event)
    (hk : evt.Kind = KindSimpleGroupMetadata) (ht : evt.CreatedAt < group.LastMetadataUpdate) :
    MergeInMetadataEvent group evt =
      (group, some (.staleUpdate evt.CreatedAt group.LastMetadataUpdate)) := by
  simp [MergeInMetadataEvent, hk, ht]

theorem admins_stale (group : Group) (evt : Event)
    (hk : evt.Kind = KindSimpleGroupAdmins) (ht : evt.CreatedAt < group.LastAdminsUpdate) :
    MergeInAdminsEvent group evt =
      (group, some (.staleUpdate evt.CreatedAt group.LastAdminsUpdate)) := by
  simp [MergeInAdminsEvent, hk, ht]

theorem members_stale (group : Group) (evt : Event)
    (hk : evt.Kind = KindSimpleGroupMembers) (ht : evt.CreatedAt < group.LastMembersUpdate) :
    MergeInMembersEvent group evt =
      (group, some (.staleUpdate evt.CreatedAt group.LastMembersUpdate)) := by
  simp [MergeInMembersEvent, hk, ht]

/-- The metadata merge returns nil exactly for an event of the metadata kind that is not
older than the stored metadata timestamp. -/
theorem metadata_ok_iff (group : Group) (evt : Event) :
    (MergeInMetadataEvent group evt).2 = none ↔
      evt.Kind = KindSimpleGroupMetadata ∧ group.LastMetadataUpdate ≤ evt.CreatedAt := by
  by_cases hk : evt.Kind = KindSimpleGroupMetadata
  · rcases lt_or_le evt.CreatedAt group.LastMetadataUpdate with ht | ht
    · simp [metadata_stale group evt hk ht, hk, ht]
    · simp [metadata_accepted group evt hk ht, hk, ht]
  · simp [metadata_wrong_kind group evt hk, hk]

theorem admins_ok_iff (group : Group) (evt : Event) :
    (MergeInAdminsEvent group evt).2 = none ↔
      evt.Kind = KindSimpleGroupAdmins ∧ group.LastAdminsUpdate ≤ evt.CreatedAt := by
  by_cases hk : evt.Kind = KindSimpleGroupAdmins
  · rcases lt_or_le evt.CreatedAt group.LastAdminsUpdate with ht | ht
    · simp [admins_stale group evt hk ht, hk, ht]
    · simp [admins_accepted group evt hk ht, hk, ht]
  · simp [admins_wrong_kind group evt hk, hk]

theorem members_ok_iff (group : Group) (evt : Event) :
    (MergeInMembersEvent group evt).2 = none ↔
      evt.Kind = KindSimpleGroupMembers ∧ group.LastMembersUpdate ≤ evt.CreatedAt := by
  by_cases hk : evt.Kind = KindSimpleGroupMembers
  · rcases lt_or_le evt.CreatedAt group.LastMembersUpdate with ht | ht
    · simp [members_stale group evt hk ht, hk, ht]
    · simp [members_accepted group evt hk ht, hk, ht]
  · simp [members_wrong_kind group evt hk, hk]

/-! ### The member map -/

theorem mapLookup_mapStore_same (m : MemberMap) (k : String) (v : Option Role) :
    mapLookup (mapStore m k v) k = some v := by
  induction m with
  | nil => simp [mapStore, mapLookup]
  | cons e rest ih =>
    obtain ⟨k0, w⟩ := e
    by_cases h : k0 = k
    · simp [mapStore, mapLookup, h]
    · simp [mapStore, mapLookup, h, ih]

theorem mapLookup_mapStore_other (m : MemberMap) (k key : String) (v : Option Role)
    (h : k ≠ key) : mapLookup (mapStore m k v) key = mapLookup m key := by
  induction m with
  | nil => simp [mapStore, mapLookup, h]
  | cons e rest ih =>
    obtain ⟨k0, w⟩ := e
    by_cases h0 : k0 = k
    · subst h0
      simp [mapStore, mapLookup, h]
    · by_cases h1 : k0 = key
      · subst h1
        simp [mapStore, mapLookup, h0]
      · simp [mapStore, mapLookup, h0, h1, ih]

theorem mem_mapKeys_iff (m : MemberMap) (key : String) :
    key ∈ mapKeys m ↔ mapLookup m key ≠ none := by
  induction m with
  | nil => simp [mapKeys, mapLookup]
  | cons e rest ih =>
    obtain ⟨k0, w⟩ := e
    by_cases h : k0 = key
    · simp [mapKeys, mapLookup, h]
    · have h2 : ¬ key = k0 := fun h3 => h h3.symm
      simp only [mapKeys] at ih
      simp [mapKeys, mapLookup, h, h2, ih]

theorem mem_mapKeys_mapStore (m : MemberMap) (k key : String) (v : Option Role) :
    key ∈ mapKeys (mapStore m k v) ↔ key = k ∨ key ∈ mapKeys m := by
  rw [mem_mapKeys_iff, mem_mapKeys_iff]
  by_cases h : k = key
  · subst h
    simp [mapLookup_mapStore_same]
  · have h2 : ¬ key = k := fun h3 => h h3.symm
    simp [mapLookup_mapStore_other m k key v h, h2]

/-! ### One step of the members merge -/

theorem mergeMembersTag_absent (m : MemberMap) (tag : Tag) (key : String)
    (hq : namesMember tag key = true) (hk : mapLookup m key = none) :
    mergeMembersTag m tag = mapStore m key EmptyRole := by
  rcases tag with _ | ⟨t0, _ | ⟨t1, rest⟩⟩
  · simp [namesMember] at hq
  · simp [namesMember] at hq
  · simp [namesMember] at hq
    obtain ⟨⟨h0, h1⟩, hv⟩ := hq
    subst h0 h1
    simp [mergeMembersTag, hv, hk]

theorem mergeMembersTag_cases (m : MemberMap) (tag : Tag) :
    mergeMembersTag m tag = m ∨
      ∃ key, namesMember tag key = true ∧ mapLookup m key = none ∧
        mergeMembersTag m tag = mapStore m key EmptyRole := by
  rcases tag with _ | ⟨t0, _ | ⟨t1, rest⟩⟩
  · simp [mergeMembersTag]
  · simp [mergeMembersTag]
  · by_cases h0 : t0 = "p"
    · by_cases hv : IsValid32ByteHex t1 = true
      · cases hk : mapLookup m t1 with
        | some v => simp [mergeMembersTag, h0, hv, hk]
        | none =>
          right
          exact ⟨t1, by simp [namesMember, h0, hv], hk, by simp [mergeMembersTag, h0, hv, hk]⟩
      · simp [mergeMembersTag, h0, hv]
    · simp [mergeMembersTag, h0]

theorem mergeMembersTag_lookup (m : MemberMap) (tag : Tag) (key : String) :
    mapLookup (mergeMembersTag m tag) key =
      if mapLookup m key = none ∧ namesMember tag key = true then some EmptyRole
      else mapLookup m key := by
  rcases mergeMembersTag_cases m tag with h | ⟨k, hq, hk, h⟩
  · rw [h]
    split
    · rename_i hc
      have h2 := mergeMembersTag_absent m tag key hc.2 hc.1
      rw [h] at h2
      have h3 := congrArg (fun x => mapLookup x key) h2
      simp only [mapLookup_mapStore_same] at h3
      exact h3
    · rfl
  · rw [h]
    by_cases hkk : k = key
    · subst hkk
      simp [mapLookup_mapStore_same, hk, hq]
    · rw [mapLookup_mapStore_other m k key _ hkk]
      split
      · rename_i hc
        have h2 := mergeMembersTag_absent m tag key hc.2 hc.1
        rw [h] at h2
        have h3 := congrArg (fun x => mapLookup x k) h2
        simp only [mapLookup_mapStore_same, mapLookup_mapStore_other m key k _ (Ne.symm hkk), hk] at h3
        cases h3
      · rfl

/-- The members merge loop: a key already present keeps its entry, an absent key named by
a qualifying tag becomes an ordinary member, every other key stays absent. -/
theorem foldl_mergeMembersTag_lookup (tags : Tags) (m : MemberMap) (key : String) :
    mapLookup (tags.foldl mergeMembersTag m) key =
      if mapLookup m key = none ∧ (∃ tag ∈ tags, namesMember tag key = true) then some EmptyRole
      else mapLookup m key := by
  induction tags generalizing m with
  | nil => simp
  | cons tag rest ih =>
    rw [List.foldl_cons, ih, mergeMembersTag_lookup]
    by_cases hk : mapLookup m key = none
    · by_cases hq : namesMember tag key = true
      · simp [hk, hq, EmptyRole]
      · simp [hk, hq]
    · simp [hk]

/-! ### One step of the admins merge -/

theorem mem_foldl_addPermission (xs ps : List Permission) (p : Permission) :
    p ∈ xs.foldl addPermission ps ↔ p ∈ ps ∨ p ∈ xs := by
  induction xs generalizing ps with
  | nil => simp
  | cons x rest ih =>
    rw [List.foldl_cons, ih]
    by_cases hx : x ∈ ps
    · simp only [addPermission, hx, if_true, List.mem_cons]
      constructor
      · rintro (h | h)
        · exact Or.inl h
        · exact Or.inr (Or.inr h)
      · rintro (h | h | h)
        · exact Or.inl h
        · exact Or.inl (h ▸ hx)
        · exact Or.inr h
    · simp only [addPermission, hx, if_false, List.mem_append, List.mem_singleton, List.mem_cons]
      tauto

theorem namesAdmin_unique (tag : Tag) (k1 k2 : String)
    (h1 : namesAdmin tag k1 = true) (h2 : namesAdmin tag k2 = true) : k1 = k2 := by
  simp [namesAdmin] at h1 h2
  have h3 := h1.1.2
  rw [h2.1.2] at h3
  exact (Option.some.inj h3).symm

theorem mergeAdminsTag_of_names (m : MemberMap) (tag : Tag) (key : String)
    (hq : namesAdmin tag key = true) :
    mergeAdminsTag m tag =
      mapStore m key (some
        { Name := (roleNameOf m key).getD (tag.getD 2 "")
          Permissions := some ((tag.drop 2).foldl addPermission (permissionsOf m key)) }) := by
  rcases tag with _ | ⟨t0, _ | ⟨t1, _ | ⟨t2, rest⟩⟩⟩
  · simp [namesAdmin] at hq
  · simp [namesAdmin] at hq
  · simp [namesAdmin] at hq
  · simp [namesAdmin] at hq
    obtain ⟨⟨h0, h1⟩, hv⟩ := hq
    subst h0 h1
    cases hr : mapIndex m t1 with
    | none => simp [mergeAdminsTag, hv, hr, roleNameOf, permissionsOf]
    | some role =>
      cases hp : role.Permissions <;>
        simp [mergeAdminsTag, hv, hr, roleNameOf, permissionsOf, hp]

theorem mergeAdminsTag_of_none (m : MemberMap) (tag : Tag)
    (hq : ∀ key, namesAdmin tag key = false) : mergeAdminsTag m tag = m := by
  rcases tag with _ | ⟨t0, _ | ⟨t1, _ | ⟨t2, rest⟩⟩⟩
  · simp [mergeAdminsTag]
  · simp [mergeAdminsTag]
  · simp [mergeAdminsTag]
  · have h := hq t1
    by_cases h0 : t0 = "p"
    · by_cases hv : IsValid32ByteHex t1 = true
      · simp [namesAdmin, h0, hv] at h
      · simp [mergeAdminsTag, h0, hv]
    · simp [mergeAdminsTag, h0]

theorem mergeAdminsTag_lookup (m : MemberMap) (tag : Tag) (key : String) :
    mapLookup (mergeAdminsTag m tag) key =
      if namesAdmin tag key = true then
        some (some
          { Name := (roleNameOf m key).getD (tag.getD 2 "")
            Permissions := some ((tag.drop 2).foldl addPermission (permissionsOf m key)) })
      else mapLookup m key := by
  by_cases hex : ∃ k, namesAdmin tag k = true
  · obtain ⟨k, hk⟩ := hex
    rw [mergeAdminsTag_of_names m tag k hk]
    by_cases hkk : k = key
    · subst hkk
      simp [mapLookup_mapStore_same, hk]
    · have hn : ¬ namesAdmin tag key = true := fun h => hkk (namesAdmin_unique tag k key hk h)
      rw [mapLookup_mapStore_other m k key _ hkk, if_neg hn]
  · have hall : ∀ k, namesAdmin tag k = false := by
      intro k
      cases h : namesAdmin tag k
      · rfl
      · exact absurd ⟨k, h⟩ hex
    rw [mergeAdminsTag_of_none m tag hall]
    simp [hall key]

theorem mergeAdminsTag_permissionsOf (m : MemberMap) (tag : Tag) (key : String) :
    permissionsOf (mergeAdminsTag m tag) key =
      if namesAdmin tag key = true then (tag.drop 2).foldl addPermission (permissionsOf m key)
      else permissionsOf m key := by
  by_cases h : namesAdmin tag key = true <;>
    simp [permissionsOf, mapIndex, mergeAdminsTag_lookup, h]

theorem mergeAdminsTag_roleNameOf (m : MemberMap) (tag : Tag) (key : String) :
    roleNameOf (mergeAdminsTag m tag) key =
      if namesAdmin tag key = true then some ((roleNameOf m key).getD (tag.getD 2 ""))
      else roleNameOf m key := by
  by_cases h : namesAdmin tag key = true <;>
    simp [roleNameOf, mapIndex, mergeAdminsTag_lookup, h]

theorem mergeAdminsTag_keys (m : MemberMap) (tag : Tag) (key : String) :
    key ∈ mapKeys (mergeAdminsTag m tag) ↔ key ∈ mapKeys m ∨ namesAdmin tag key = true := by
  rw [mem_mapKeys_iff, mem_mapKeys_iff, mergeAdminsTag_lookup]
  by_cases h : namesAdmin tag key = true <;> simp [h]

/-! ### The admins merge loop -/

theorem foldl_mergeAdminsTag_keys (tags : Tags) (m : MemberMap) (key : String) :
    key ∈ mapKeys (tags.foldl mergeAdminsTag m) ↔
      key ∈ mapKeys m ∨ ∃ tag ∈ tags, namesAdmin tag key = true := by
  induction tags generalizing m with
  | nil => simp
  | cons tag rest ih =>
    rw [List.foldl_cons, ih, mergeAdminsTag_keys]
    simp only [List.mem_cons, exists_eq_or_imp, or_assoc]

/-- The admins merge loop never drops a permission and adds, for each qualifying tag naming
the member, the tag entries from the third position onward. -/
theorem foldl_mergeAdminsTag_permissionsOf (tags : Tags) (m : MemberMap) (key : String)
    (p : Permission) :
    p ∈ permissionsOf (tags.foldl mergeAdminsTag m) key ↔
      p ∈ permissionsOf m key ∨ ∃ tag ∈ tags, namesAdmin tag key = true ∧ p ∈ tag.drop 2 := by
  induction tags generalizing m with
  | nil => simp
  | cons tag rest ih =>
    rw [List.foldl_cons, ih, mergeAdminsTag_permissionsOf]
    by_cases h : namesAdmin tag key = true
    · simp only [h, if_true, mem_foldl_addPermission, List.mem_cons, exists_eq_or_imp, true_and,
        or_assoc]
    · simp [h]

/-- The admins merge loop keeps the name of an existing Role and names a new Role after the
third entry of the first qualifying tag naming the member. -/
theorem foldl_mergeAdminsTag_roleNameOf (tags : Tags) (m : MemberMap) (key : String) :
    roleNameOf (tags.foldl mergeAdminsTag m) key =
      match roleNameOf m key with
      | some name => some name
      | none => (tags.find? (fun tag => namesAdmin tag key)).map (fun tag => tag.getD 2 "") := by
  induction tags generalizing m with
  | nil => cases hr : roleNameOf m key <;> simp [hr]
  | cons tag rest ih =>
    rw [List.foldl_cons, ih, mergeAdminsTag_roleNameOf]
    by_cases h : namesAdmin tag key = true
    · cases hr : roleNameOf m key <;> simp [h, List.find?]
    · cases hr : roleNameOf m key <;> simp [h, List.find?]

/-! ### Keys of the member map after a merge -/

theorem namesAdmin_valid (tag : Tag) (key : String) (h : namesAdmin tag key = true) :
    IsValid32ByteHex key = true := by
  simp [namesAdmin] at h
  exact h.2

theorem namesMember_valid (tag : Tag) (key : String) (h : namesMember tag key = true) :
    IsValid32ByteHex key = true := by
  simp [namesMember] at h
  exact h.2

theorem foldl_mergeMembersTag_keys (tags : Tags) (m : MemberMap) (key : String) :
    key ∈ mapKeys (tags.foldl mergeMembersTag m) ↔
      key ∈ mapKeys m ∨ ∃ tag ∈ tags, namesMember tag key = true := by
  rw [mem_mapKeys_iff, mem_mapKeys_iff, foldl_mergeMembersTag_lookup]
  by_cases hk : mapLookup m key = none
  · by_cases hq : ∃ tag ∈ tags, namesMember tag key = true
    · simp [hk, hq]
    · simp [hk, hq]
  · simp [hk]

/-- The member map after the admins merge, whatever the outcome: new keys come from
qualifying tags only. -/
theorem admins_merge_keys (group : Group) (evt : Event) (key : String)
    (h : key ∈ mapKeys (MergeInAdminsEvent group evt).1.Members) :
    key ∈ mapKeys group.Members ∨ ∃ tag ∈ evt.Tags, namesAdmin tag key = true := by
  by_cases hk : evt.Kind = KindSimpleGroupAdmins
  · rcases lt_or_le evt.CreatedAt group.LastAdminsUpdate with ht | ht
    · rw [admins_stale group evt hk ht] at h
      exact Or.inl h
    · rw [admins_accepted group evt hk ht] at h
      exact (foldl_mergeAdminsTag_keys evt.Tags group.Members key).1 h
  · rw [admins_wrong_kind group evt hk] at h
    exact Or.inl h

/-- The member map after the members merge, whatever the outcome: new keys come from
qualifying tags only. -/
theorem members_merge_keys (group : Group) (evt : Event) (key : String)
    (h : key ∈ mapKeys (MergeInMembersEvent group evt).1.Members) :
    key ∈ mapKeys group.Members ∨ ∃ tag ∈ evt.Tags, namesMember tag key = true := by
  by_cases hk : evt.Kind = KindSimpleGroupMembers
  · rcases lt_or_le evt.CreatedAt group.LastMembersUpdate with ht | ht
    · rw [members_stale group evt hk ht] at h
      exact Or.inl h
    · rw [members_accepted group evt hk ht] at h
      exact (foldl_mergeMembersTag_keys evt.Tags group.Members key).1 h
  · rw [members_wrong_kind group evt hk] at h
    exact Or.inl h

/-! ### C1, C2, C3: the two guards of the merges -/

/-- C1: for each of the three merges, an event of the matching kind whose CreatedAt is
strictly less than the stored timestamp of the facet is rejected with the stale-update
error, and the group after the call equals the group before it in every field. -/
theorem stale_event_is_rejected_without_mutation (group : Group) (evt : Event) :
    (evt.Kind = KindSimpleGroupMetadata → evt.CreatedAt < group.LastMetadataUpdate →
      MergeInMetadataEvent group evt =
        (group, some (MergeError.staleUpdate evt.CreatedAt group.LastMetadataUpdate))) ∧
    (evt.Kind = KindSimpleGroupAdmins → evt.CreatedAt < group.LastAdminsUpdate →
      MergeInAdminsEvent group evt =
        (group, some (MergeError.staleUpdate evt.CreatedAt group.LastAdminsUpdate))) ∧
    (evt.Kind = KindSimpleGroupMembers → evt.CreatedAt < group.LastMembersUpdate →
      MergeInMembersEvent group evt =
        (group, some (MergeError.staleUpdate evt.CreatedAt group.LastMembersUpdate))) :=
  ⟨metadata_stale group evt, admins_stale group evt, members_stale group evt⟩

/-- Witness of C1: three events stamped 50 meet a group whose facets are stamped 100. -/
theorem stale_event_is_rejected_without_mutation_witness :
    MergeInMetadataEvent sampleGroup metadataEventAt50 =
        (sampleGroup, some (MergeError.staleUpdate 50 100)) ∧
      MergeInAdminsEvent sampleGroup adminsEventAt50 =
        (sampleGroup, some (MergeError.staleUpdate 50 100)) ∧
      MergeInMembersEvent sampleGroup membersEventAt50 =
        (sampleGroup, some (MergeError.staleUpdate 50 100)) :=
  ⟨(stale_event_is_rejected_without_mutation sampleGroup metadataEventAt50).1 rfl (by decide),
    (stale_event_is_rejected_without_mutation sampleGroup adminsEventAt50).2.1 rfl (by decide),
    (stale_event_is_rejected_without_mutation sampleGroup membersEventAt50).2.2 rfl (by decide)⟩

/-- C2: each merge returns nil exactly when the event has the kind of the facet and its
CreatedAt is greater than or equal to the stored timestamp of the facet; in particular an
event stamped exactly like the facet is accepted; after a successful merge the stored
timestamp is the CreatedAt of the event; and the stored timestamp never decreases. -/
theorem merge_succeeds_iff_kind_and_not_older (group : Group) (evt : Event) :
    (((MergeInMetadataEvent group evt).2 = none ↔
        evt.Kind = KindSimpleGroupMetadata ∧ group.LastMetadataUpdate ≤ evt.CreatedAt) ∧
      (evt.Kind = KindSimpleGroupMetadata → evt.CreatedAt = group.LastMetadataUpdate →
        (MergeInMetadataEvent group evt).2 = none) ∧
      ((MergeInMetadataEvent group evt).2 = none →
        (MergeInMetadataEvent group evt).1.LastMetadataUpdate = evt.CreatedAt) ∧
      group.LastMetadataUpdate ≤ (MergeInMetadataEvent group evt).1.LastMetadataUpdate) ∧
    (((MergeInAdminsEvent group evt).2 = none ↔
        evt.Kind = KindSimpleGroupAdmins ∧ group.LastAdminsUpdate ≤ evt.CreatedAt) ∧
      (evt.Kind = KindSimpleGroupAdmins → evt.CreatedAt = group.LastAdminsUpdate →
        (MergeInAdminsEvent group evt).2 = none) ∧
      ((MergeInAdminsEvent group evt).2 = none →
        (MergeInAdminsEvent group evt).1.LastAdminsUpdate = evt.CreatedAt) ∧
      group.LastAdminsUpdate ≤ (MergeInAdminsEvent group evt).1.LastAdminsUpdate) ∧
    (((MergeInMembersEvent group evt).2 = none ↔
        evt.Kind = KindSimpleGroupMembers ∧ group.LastMembersUpdate ≤ evt.CreatedAt) ∧
      (evt.Kind = KindSimpleGroupMembers → evt.CreatedAt = group.LastMembersUpdate →
        (MergeInMembersEvent group evt).2 = none) ∧
      ((MergeInMembersEvent group evt).2 = none →
        (MergeInMembersEvent group evt).1.LastMembersUpdate = evt.CreatedAt) ∧
      group.LastMembersUpdate ≤ (MergeInMembersEvent group evt).1.LastMembersUpdate) := by
  refine ⟨⟨metadata_ok_iff group evt, ?_, ?_, ?_⟩, ⟨admins_ok_iff group evt, ?_, ?_, ?_⟩,
    ⟨members_ok_iff group evt, ?_, ?_, ?_⟩⟩
  · intro hk ht
    exact (metadata_ok_iff group evt).2 ⟨hk, le_of_eq ht.symm⟩
  · intro h
    obtain ⟨hk, ht⟩ := (metadata_ok_iff group evt).1 h
    rw [metadata_accepted group evt hk ht]
  · by_cases hk : evt.Kind = KindSimpleGroupMetadata
    · rcases lt_or_le evt.CreatedAt group.LastMetadataUpdate with ht | ht
      · rw [metadata_stale group evt hk ht]
      · rw [metadata_accepted group evt hk ht]
        exact ht
    · rw [metadata_wrong_kind group evt hk]
  · intro hk ht
    exact (admins_ok_iff group evt).2 ⟨hk, le_of_eq ht.symm⟩
  · intro h
    obtain ⟨hk, ht⟩ := (admins_ok_iff group evt).1 h
    rw [admins_accepted group evt hk ht]
  · by_cases hk : evt.Kind = KindSimpleGroupAdmins
    · rcases lt_or_le evt.CreatedAt group.LastAdminsUpdate with ht | ht
      · rw [admins_stale group evt hk ht]
      · rw [admins_accepted group evt hk ht]
        exact ht
    · rw [admins_wrong_kind group evt hk]
  · intro hk ht
    exact (members_ok_iff group evt).2 ⟨hk, le_of_eq ht.symm⟩
  · intro h
    obtain ⟨hk, ht⟩ := (members_ok_iff group evt).1 h
    rw [members_accepted group evt hk ht]
  · by_cases hk : evt.Kind = KindSimpleGroupMembers
    · rcases lt_or_le evt.CreatedAt group.LastMembersUpdate with ht | ht
      · rw [members_stale group evt hk ht]
      · rw [members_accepted group evt hk ht]
        exact ht
    · rw [members_wrong_kind group evt hk]

/-- Witness of C2: three events stamped 100, like the facets of the group, are accepted and
leave each facet stamped 100. -/
theorem merge_succeeds_iff_kind_and_not_older_witness :
    ((MergeInMetadataEvent sampleGroup metadataEventAt100).2 = none ∧
        (MergeInMetadataEvent sampleGroup metadataEventAt100).1.LastMetadataUpdate = 100) ∧
      ((MergeInAdminsEvent sampleGroup adminsEventAt100).2 = none ∧
        (MergeInAdminsEvent sampleGroup adminsEventAt100).1.LastAdminsUpdate = 100) ∧
      ((MergeInMembersEvent sampleGroup membersEventAt100).2 = none ∧
        (MergeInMembersEvent sampleGroup membersEventAt100).1.LastMembersUpdate = 100) :=
  ⟨⟨(merge_succeeds_iff_kind_and_not_older sampleGroup metadataEventAt100).1.2.1 rfl rfl,
      (merge_succeeds_iff_kind_and_not_older sampleGroup metadataEventAt100).1.2.2.1
        ((merge_succeeds_iff_kind_and_not_older sampleGroup metadataEventAt100).1.2.1 rfl rfl)⟩,
    ⟨(merge_succeeds_iff_kind_and_not_older sampleGroup adminsEventAt100).2.1.2.1 rfl rfl,
      (merge_succeeds_iff_kind_and_not_older sampleGroup adminsEventAt100).2.1.2.2.1
        ((merge_succeeds_iff_kind_and_not_older sampleGroup adminsEventAt100).2.1.2.1 rfl rfl)⟩,
    ⟨(merge_succeeds_iff_kind_and_not_older sampleGroup membersEventAt100).2.2.2.1 rfl rfl,
      (merge_succeeds_iff_kind_and_not_older sampleGroup membersEventAt100).2.2.2.2.1
        ((merge_succeeds_iff_kind_and_not_older sampleGroup membersEventAt100).2.2.2.1 rfl rfl)⟩⟩

/-- C3: for each of the three merges, an event whose kind is not the kind of the facet is
rejected with the kind-mismatch error, whatever its timestamp and tags, and the group after
the call equals the group before it in every field. -/
theorem wrong_kind_is_rejected_without_mutation (group : Group) (evt : Event) :
    (evt.Kind ≠ KindSimpleGroupMetadata →
      MergeInMetadataEvent group evt =
        (group, some (MergeError.kindMismatch KindSimpleGroupMetadata evt.Kind))) ∧
    (evt.Kind ≠ KindSimpleGroupAdmins →
      MergeInAdminsEvent group evt =
        (group, some (MergeError.kindMismatch KindSimpleGroupAdmins evt.Kind))) ∧
    (evt.Kind ≠ KindSimpleGroupMembers →
      MergeInMembersEvent group evt =
        (group, some (MergeError.kindMismatch KindSimpleGroupMembers evt.Kind))) :=
  ⟨metadata_wrong_kind group evt, admins_wrong_kind group evt, members_wrong_kind group evt⟩

/-- Witness of C3: each merge is handed an event of another facet, stamped late enough to
be accepted by its own merge. -/
theorem wrong_kind_is_rejected_without_mutation_witness :
    MergeInMetadataEvent sampleGroup adminsEventAt100 =
        (sampleGroup, some (MergeError.kindMismatch 39000 39001)) ∧
      MergeInAdminsEvent sampleGroup membersEventAt100 =
        (sampleGroup, some (MergeError.kindMismatch 39001 39002)) ∧
      MergeInMembersEvent sampleGroup metadataEventAt100 =
        (sampleGroup, some (MergeError.kindMismatch 39002 39000)) :=
  ⟨(wrong_kind_is_rejected_without_mutation sampleGroup adminsEventAt100).1 (by decide),
    (wrong_kind_is_rejected_without_mutation sampleGroup membersEventAt100).2.1 (by decide),
    (wrong_kind_is_rejected_without_mutation sampleGroup metadataEventAt100).2.2 (by decide)⟩

/-! ### C4: projecting a group and merging the projections into a fresh group -/

theorem getFirst_name_of_projection (group : Group) :
    GetFirst (ToMetadataEvent group).Tags ["name", ""] =
      if group.Name = "" then none else some ["name", group.Name] := by
  by_cases h1 : group.Name = "" <;> by_cases h2 : group.About = "" <;>
    by_cases h3 : group.Picture = "" <;> cases h4 : group.Private <;>
    cases h5 : group.Closed <;>
    simp [ToMetadataEvent, GetFirst, tagMatches, List.find?, h1, h2, h3, h4, h5]

theorem getFirst_picture_of_projection (group : Group) :
    GetFirst (ToMetadataEvent group).Tags ["picture", ""] =
      if group.Picture = "" then none else some ["picture", group.Picture] := by
  by_cases h1 : group.Name = "" <;> by_cases h2 : group.About = "" <;>
    by_cases h3 : group.Picture = "" <;> cases h4 : group.Private <;>
    cases h5 : group.Closed <;>
    simp [ToMetadataEvent, GetFirst, tagMatches, List.find?, h1, h2, h3, h4, h5]

theorem getFirst_private_of_projection (group : Group) :
    (GetFirst (ToMetadataEvent group).Tags ["private"]).isSome = group.Private := by
  by_cases h1 : group.Name = "" <;> by_cases h2 : group.About = "" <;>
    by_cases h3 : group.Picture = "" <;> cases h4 : group.Private <;>
    cases h5 : group.Closed <;>
    simp [ToMetadataEvent, GetFirst, tagMatches, List.find?, h1, h2, h3, h4, h5]

theorem getFirst_closed_of_projection (group : Group) :
    (GetFirst (ToMetadataEvent group).Tags ["closed"]).isSome = group.Closed := by
  by_cases h1 : group.Name = "" <;> by_cases h2 : group.About = "" <;>
    by_cases h3 : group.Picture = "" <;> cases h4 : group.Private <;>
    cases h5 : group.Closed <;>
    simp [ToMetadataEvent, GetFirst, tagMatches, List.find?, h1, h2, h3, h4, h5]

theorem mem_of_mapLookup (m : MemberMap) (key : String) (v : Option Role)
    (h : mapLookup m key = some v) : (key, v) ∈ m := by
  induction m with
  | nil => simp [mapLookup] at h
  | cons e rest ih =>
    obtain ⟨k0, w⟩ := e
    by_cases hk : k0 = key
    · subst hk
      simp [mapLookup] at h
      simp [h]
    · simp [mapLookup, hk] at h
      exact List.mem_cons_of_mem _ (ih h)

theorem mapLookup_of_mem (m : MemberMap) (key : String) (v : Option Role)
    (hnodup : (mapKeys m).Nodup) (h : (key, v) ∈ m) : mapLookup m key = some v := by
  induction m with
  | nil => simp at h
  | cons e rest ih =>
    obtain ⟨k0, w⟩ := e
    simp only [mapKeys, List.map_cons, List.nodup_cons] at hnodup
    rcases List.mem_cons.1 h with h1 | h1
    · cases h1
      simp [mapLookup]
    · have hne : k0 ≠ key := by
        intro hk
        subst hk
        exact hnodup.1 (List.mem_map.2 ⟨(k0, v), h1, rfl⟩)
      simp only [mapLookup, hne, if_false]
      exact ih hnodup.2 h1

theorem mem_foldl_adminTag (m : MemberMap) (start : Tags) (tag : Tag) :
    tag ∈ m.foldl adminTag start ↔
      tag ∈ start ∨
        ∃ key role, (key, some role) ∈ m ∧
          tag = ["p", key, role.Name] ++ role.Permissions.getD [] := by
  induction m generalizing start with
  | nil => simp
  | cons e rest ih =>
    obtain ⟨k0, w⟩ := e
    rw [List.foldl_cons, ih]
    cases w with
    | none =>
      simp only [adminTag, List.mem_cons, Prod.mk.injEq, false_or, reduceCtorEq, and_false]
    | some role0 =>
      simp only [adminTag, List.mem_append, List.mem_singleton, List.mem_cons, Prod.mk.injEq,
        Option.some.injEq, List.not_mem_nil, or_false]
      constructor
      · rintro ((h | h) | ⟨key, role, hmem, htag⟩)
        · exact Or.inl h
        · exact Or.inr ⟨k0, role0, Or.inl ⟨rfl, rfl⟩, h⟩
        · exact Or.inr ⟨key, role, Or.inr hmem, htag⟩
      · rintro (h | ⟨key, role, hmem | hmem, htag⟩)
        · exact Or.inl (Or.inl h)
        · obtain ⟨h1, h2⟩ := hmem
          subst h1 h2
          exact Or.inl (Or.inr htag)
        · exact Or.inr ⟨key, role, hmem, htag⟩

theorem mem_foldl_memberTag (m : MemberMap) (start : Tags) (tag : Tag) :
    tag ∈ m.foldl (fun tags entry => tags ++ [["p", entry.1]]) start ↔
      tag ∈ start ∨ ∃ key ∈ mapKeys m, tag = ["p", key] := by
  induction m generalizing start with
  | nil => simp [mapKeys]
  | cons e rest ih =>
    obtain ⟨k0, w⟩ := e
    rw [List.foldl_cons, ih]
    simp only [mapKeys, List.mem_append, List.mem_singleton, List.map_cons, List.mem_cons,
      exists_eq_or_imp, or_assoc, List.not_mem_nil, false_or]

/-- The qualifying tags of the admins projection are the tags of the admins of the group. -/
theorem namesAdmin_projection (group : Group) (key : String) (tag : Tag)
    (hnodup : (mapKeys group.Members).Nodup)
    (hvalid : ∀ k ∈ mapKeys group.Members, IsValid32ByteHex k = true) :
    (tag ∈ (ToAdminsEvent group).Tags ∧ namesAdmin tag key = true) ↔
      ∃ role, mapIndex group.Members key = some role ∧
        tag = ["p", key, role.Name] ++ role.Permissions.getD [] := by
  constructor
  · rintro ⟨hmem, hq⟩
    rcases (mem_foldl_adminTag group.Members [["d", group.ID]] tag).1 hmem with h | h
    · simp only [List.mem_singleton] at h
      subst h
      simp [namesAdmin] at hq
    · obtain ⟨k, role, hkr, htag⟩ := h
      subst htag
      have hk : k = key := by
        simp [namesAdmin] at hq
        exact hq.1
      subst hk
      refine ⟨role, ?_, rfl⟩
      simp [mapIndex, mapLookup_of_mem group.Members k (some role) hnodup hkr]
  · rintro ⟨role, hrole, htag⟩
    have hlook : mapLookup group.Members key = some (some role) := by
      cases h : mapLookup group.Members key with
      | none => simp [mapIndex, h] at hrole
      | some v =>
        simp [mapIndex, h] at hrole
        rw [hrole]
    have hmem := mem_of_mapLookup group.Members key (some role) hlook
    have hkey : key ∈ mapKeys group.Members := List.mem_map.2 ⟨(key, some role), hmem, rfl⟩
    constructor
    · exact (mem_foldl_adminTag group.Members [["d", group.ID]] tag).2
        (Or.inr ⟨key, role, hmem, htag⟩)
    · subst htag
      simp [namesAdmin, hvalid key hkey]

/-- The qualifying tags of the members projection name the keys of the group. -/
theorem namesMember_projection (group : Group) (key : String)
    (hvalid : ∀ k ∈ mapKeys group.Members, IsValid32ByteHex k = true) :
    (∃ tag ∈ (ToMembersEvent group).Tags, namesMember tag key = true) ↔
      key ∈ mapKeys group.Members := by
  constructor
  · rintro ⟨tag, hmem, hq⟩
    rcases (mem_foldl_memberTag group.Members [["d", group.ID]] tag).1 hmem with h | h
    · simp only [List.mem_singleton] at h
      subst h
      simp [namesMember] at hq
    · obtain ⟨k, hk, htag⟩ := h
      subst htag
      simp [namesMember] at hq
      rw [← hq.1]
      exact hk
  · intro hkey
    refine ⟨["p", key], ?_, ?_⟩
    · exact (mem_foldl_memberTag group.Members [["d", group.ID]] ["p", key]).2
        (Or.inr ⟨key, hkey, rfl⟩)
    · simp [namesMember, hvalid key hkey]

theorem mapIndex_nil (key : String) : mapIndex [] key = none := rfl

theorem mem_mapKeys_of_mapIndex (m : MemberMap) (key : String) (role : Role)
    (h : mapIndex m key = some role) : key ∈ mapKeys m := by
  rw [mem_mapKeys_iff]
  intro hnone
  simp [mapIndex, hnone] at h

/-- After the admins projection has been merged into an empty map, the Role names are those
of the group. -/
theorem roleNameOf_admins_projection (group : Group) (key : String)
    (hnodup : (mapKeys group.Members).Nodup)
    (hvalid : ∀ k ∈ mapKeys group.Members, IsValid32ByteHex k = true) :
    roleNameOf ((ToAdminsEvent group).Tags.foldl mergeAdminsTag []) key =
      roleNameOf group.Members key := by
  rw [foldl_mergeAdminsTag_roleNameOf]
  have hnil : roleNameOf [] key = none := rfl
  rw [hnil]
  cases hfind : (ToAdminsEvent group).Tags.find? (fun tag => namesAdmin tag key) with
  | some tag =>
    have hq : namesAdmin tag key = true := by
      have := List.find?_some hfind
      simpa using this
    have hmem := List.mem_of_find?_eq_some hfind
    obtain ⟨role, hrole, htag⟩ :=
      (namesAdmin_projection group key tag hnodup hvalid).1 ⟨hmem, hq⟩
    subst htag
    simp [roleNameOf, hrole]
  | none =>
    have hall := List.find?_eq_none.1 hfind
    cases hrole : mapIndex group.Members key with
    | none => simp [roleNameOf, hrole]
    | some role =>
      have h := (namesAdmin_projection group key _ hnodup hvalid).2 ⟨role, hrole, rfl⟩
      exact absurd h.2 (hall _ h.1)

/-- After the admins projection has been merged into an empty map, the keys are the admins
of the group. -/
theorem keys_admins_projection (group : Group) (key : String)
    (hnodup : (mapKeys group.Members).Nodup)
    (hvalid : ∀ k ∈ mapKeys group.Members, IsValid32ByteHex k = true) :
    key ∈ mapKeys ((ToAdminsEvent group).Tags.foldl mergeAdminsTag []) ↔
      ∃ role, mapIndex group.Members key = some role := by
  rw [foldl_mergeAdminsTag_keys]
  constructor
  · rintro (h | ⟨tag, hmem, hq⟩)
    · simp [mapKeys] at h
    · obtain ⟨role, hrole, _⟩ :=
        (namesAdmin_projection group key tag hnodup hvalid).1 ⟨hmem, hq⟩
      exact ⟨role, hrole⟩
  · rintro ⟨role, hrole⟩
    have h := (namesAdmin_projection group key _ hnodup hvalid).2 ⟨role, hrole, rfl⟩
    exact Or.inr ⟨_, h.1, h.2⟩

/-- After the admins projection has been merged into an empty map, every permission of the
group is held. -/
theorem permissionsOf_admins_projection (group : Group) (key : String) (p : Permission)
    (hnodup : (mapKeys group.Members).Nodup)
    (hvalid : ∀ k ∈ mapKeys group.Members, IsValid32ByteHex k = true)
    (hp : p ∈ permissionsOf group.Members key) :
    p ∈ permissionsOf ((ToAdminsEvent group).Tags.foldl mergeAdminsTag []) key := by
  rw [foldl_mergeAdminsTag_permissionsOf]
  cases hrole : mapIndex group.Members key with
  | none => simp [permissionsOf, hrole] at hp
  | some role =>
    have h := (namesAdmin_projection group key _ hnodup hvalid).2 ⟨role, hrole, rfl⟩
    refine Or.inr ⟨_, h.1, h.2, ?_⟩
    simp only [permissionsOf, hrole] at hp
    simp [hp]

/-- Merging the members projection afterwards adds the ordinary members and changes no
Role. -/
theorem mapIndex_members_projection (group : Group) (m : MemberMap) (key : String) :
    mapIndex ((ToMembersEvent group).Tags.foldl mergeMembersTag m) key = mapIndex m key := by
  unfold mapIndex
  rw [foldl_mergeMembersTag_lookup]
  split
  · rename_i h
    simp [h.1, EmptyRole]
  · rfl

theorem keys_members_projection (group : Group) (m : MemberMap) (key : String)
    (hvalid : ∀ k ∈ mapKeys group.Members, IsValid32ByteHex k = true) :
    key ∈ mapKeys ((ToMembersEvent group).Tags.foldl mergeMembersTag m) ↔
      key ∈ mapKeys m ∨ key ∈ mapKeys group.Members := by
  rw [foldl_mergeMembersTag_keys, namesMember_projection group key hvalid]

/-- The three steps of the round trip succeed, and the rebuilt group has the display
fields of the metadata projection and the member map built from the two other
projections. -/
theorem rebuild_steps (group : Group) (hmeta : 0 ≤ group.LastMetadataUpdate)
    (hadmins : 0 ≤ group.LastAdminsUpdate) (hmembers : 0 ≤ group.LastMembersUpdate) :
    (rebuildMetadata group).2 = none ∧ (rebuildAdmins group).2 = none ∧
      (rebuildMembers group).2 = none ∧
      (rebuildMembers group).1.Name = (if group.Name = "" then group.ID else group.Name) ∧
      (rebuildMembers group).1.Picture = group.Picture ∧
      (rebuildMembers group).1.Private = group.Private ∧
      (rebuildMembers group).1.Closed = group.Closed ∧
      (rebuildMembers group).1.Members =
        (ToMembersEvent group).Tags.foldl mergeMembersTag
          ((ToAdminsEvent group).Tags.foldl mergeAdminsTag []) := by
  have h1 : rebuildMetadata group = _ :=
    metadata_accepted (NewGroup group.ID) (ToMetadataEvent group) rfl hmeta
  have h2 : rebuildAdmins group = _ :=
    admins_accepted (rebuildMetadata group).1 (ToAdminsEvent group) rfl
      (by rw [h1]; exact hadmins)
  have h3 : rebuildMembers group = _ :=
    members_accepted (rebuildAdmins group).1 (ToMembersEvent group) rfl
      (by rw [h2, h1]; exact hmembers)
  refine ⟨by rw [h1], by rw [h2], by rw [h3], ?_, ?_, ?_, ?_, ?_⟩
  · rw [h3, h2, h1]
    simp only [getFirst_name_of_projection]
    by_cases hn : group.Name = "" <;> simp [hn, NewGroup]
  · rw [h3, h2, h1]
    simp only [getFirst_picture_of_projection]
    by_cases hn : group.Picture = "" <;> simp [hn, NewGroup]
  · rw [h3, h2, h1]
    simp [getFirst_private_of_projection, NewGroup]
  · rw [h3, h2, h1]
    simp [getFirst_closed_of_projection, NewGroup]
  · rw [h3, h2, h1]
    rfl

/-- C4 as stated fails: the group with ID g1, an empty Name, no member and zero timestamps
is rebuilt with Name g1. -/
theorem round_trip_replaces_empty_name :
    (∀ key ∈ mapKeys namelessGroup.Members, IsValid32ByteHex key = true) ∧
      0 ≤ namelessGroup.LastMetadataUpdate ∧ 0 ≤ namelessGroup.LastAdminsUpdate ∧
      0 ≤ namelessGroup.LastMembersUpdate ∧
      (rebuildMetadata namelessGroup).2 = none ∧ (rebuildAdmins namelessGroup).2 = none ∧
      (rebuildMembers namelessGroup).2 = none ∧
      namelessGroup.Name = "" ∧ (rebuildMembers namelessGroup).1.Name = "g1" := by
  decide

/-- C4, amended: for every group whose member identifiers are distinct valid 32-byte hex
strings and whose three timestamps are non-negative, merging its metadata, admins and
members projections into `NewGroup` of its ID succeeds three times and yields a group with
the same Name when Name is non-empty and with the ID as Name otherwise, the same Picture,
Private and Closed, the same member identifiers, the same admin or ordinary status for
each, for every admin the same Role name, and every permission the admin held. -/
theorem round_trip_restores_names_flags_and_roster (group : Group)
    (hnodup : (mapKeys group.Members).Nodup)
    (hvalid : ∀ key ∈ mapKeys group.Members, IsValid32ByteHex key = true)
    (hmeta : 0 ≤ group.LastMetadataUpdate) (hadmins : 0 ≤ group.LastAdminsUpdate)
    (hmembers : 0 ≤ group.LastMembersUpdate) :
    (rebuildMetadata group).2 = none ∧ (rebuildAdmins group).2 = none ∧
      (rebuildMembers group).2 = none ∧
      (rebuildMembers group).1.Name = (if group.Name = "" then group.ID else group.Name) ∧
      (rebuildMembers group).1.Picture = group.Picture ∧
      (rebuildMembers group).1.Private = group.Private ∧
      (rebuildMembers group).1.Closed = group.Closed ∧
      (∀ key, key ∈ mapKeys (rebuildMembers group).1.Members ↔ key ∈ mapKeys group.Members) ∧
      (∀ key, roleNameOf (rebuildMembers group).1.Members key
        = roleNameOf group.Members key) ∧
      (∀ key p, p ∈ permissionsOf group.Members key →
        p ∈ permissionsOf (rebuildMembers group).1.Members key) := by
  obtain ⟨s1, s2, s3, hname, hpic, hpriv, hclosed, hm⟩ :=
    rebuild_steps group hmeta hadmins hmembers
  refine ⟨s1, s2, s3, hname, hpic, hpriv, hclosed, ?_, ?_, ?_⟩
  · intro key
    rw [hm, keys_members_projection group _ key hvalid,
      keys_admins_projection group key hnodup hvalid]
    constructor
    · rintro (⟨role, hrole⟩ | h)
      · exact mem_mapKeys_of_mapIndex _ key role hrole
      · exact h
    · exact fun h => Or.inr h
  · intro key
    rw [hm]
    unfold roleNameOf
    rw [mapIndex_members_projection]
    exact roleNameOf_admins_projection group key hnodup hvalid
  · intro key p hp
    rw [hm]
    unfold permissionsOf
    rw [mapIndex_members_projection]
    exact permissionsOf_admins_projection group key p hnodup hvalid hp

/-- Witness of the amended C4: a group with an admin and an ordinary member. -/
theorem round_trip_restores_names_flags_and_roster_witness :
    (rebuildMetadata fullGroup).2 = none ∧ (rebuildAdmins fullGroup).2 = none ∧
      (rebuildMembers fullGroup).2 = none ∧
      (rebuildMembers fullGroup).1.Name
        = (if fullGroup.Name = "" then fullGroup.ID else fullGroup.Name) ∧
      (rebuildMembers fullGroup).1.Picture = fullGroup.Picture ∧
      (rebuildMembers fullGroup).1.Private = fullGroup.Private ∧
      (rebuildMembers fullGroup).1.Closed = fullGroup.Closed ∧
      (∀ key, key ∈ mapKeys (rebuildMembers fullGroup).1.Members
        ↔ key ∈ mapKeys fullGroup.Members) ∧
      (∀ key, roleNameOf (rebuildMembers fullGroup).1.Members key
        = roleNameOf fullGroup.Members key) ∧
      (∀ key p, p ∈ permissionsOf fullGroup.Members key →
        p ∈ permissionsOf (rebuildMembers fullGroup).1.Members key) :=
  round_trip_restores_names_flags_and_roster fullGroup (by decide) (by decide) (by decide)
    (by decide) (by decide)

/-! ### C5: two events of one facet in a row -/

/-- C6: an accepted members event never removes or demotes.  Every identifier present in
Members before the merge is present afterwards with the same Role value, and every
identifier that was absent and is named by a qualifying tag (at least 2 entries, first
entry p, second entry a valid 32-byte hex identifier) is afterwards an ordinary member
(EmptyRole). -/
theorem members_merge_never_removes_or_demotes (group : Group) (evt : Event)
    (hok : (MergeInMembersEvent group evt).2 = none) :
    (∀ member role, mapLookup group.Members member = some role →
      mapLookup (MergeInMembersEvent group evt).1.Members member = some role) ∧
    (∀ member, mapLookup group.Members member = none →
      (∃ tag ∈ evt.Tags, namesMember tag member = true) →
      mapLookup (MergeInMembersEvent group evt).1.Members member = some EmptyRole) := by
  obtain ⟨hk, ht⟩ := (members_ok_iff group evt).1 hok
  rw [members_accepted group evt hk ht]
  constructor
  · intro member role h
    show mapLookup (evt.Tags.foldl mergeMembersTag group.Members) member = some role
    rw [foldl_mergeMembersTag_lookup]
    simp [h]
  · intro member h hq
    show mapLookup (evt.Tags.foldl mergeMembersTag group.Members) member = some EmptyRole
    rw [foldl_mergeMembersTag_lookup, if_pos ⟨h, hq⟩]

/-- Witness of C6, the scenario of the spec: after the admins event stamped 10 has made
`memberA` admin Alice, the members event stamped 5 that lists `memberA` and `memberB` is
accepted, leaves `memberA` the Role it had and adds `memberB` as an ordinary member. -/
theorem members_merge_never_removes_or_demotes_witness :
    (MergeInMembersEvent (MergeInAdminsEvent (NewGroup "g1") aliceAdminsEvent).1 rosterEvent).2
        = none ∧
      roleNameOf (MergeInAdminsEvent (NewGroup "g1") aliceAdminsEvent).1.Members memberA
        = some "Alice" ∧
      mapLookup
          (MergeInMembersEvent (MergeInAdminsEvent (NewGroup "g1") aliceAdminsEvent).1
            rosterEvent).1.Members memberA
        = mapLookup (MergeInAdminsEvent (NewGroup "g1") aliceAdminsEvent).1.Members memberA ∧
      mapLookup
          (MergeInMembersEvent (MergeInAdminsEvent (NewGroup "g1") aliceAdminsEvent).1
            rosterEvent).1.Members memberB
        = some EmptyRole :=
  ⟨by decide, by decide,
    (members_merge_never_removes_or_demotes
      (MergeInAdminsEvent (NewGroup "g1") aliceAdminsEvent).1 rosterEvent (by decide)).1
      memberA (some { Name := "Alice", Permissions := some ["Alice", "manage"] }) (by decide),
    (members_merge_never_removes_or_demotes
      (MergeInAdminsEvent (NewGroup "g1") aliceAdminsEvent).1 rosterEvent (by decide)).2
      memberB (by decide) ⟨["p", memberB], by decide, by decide⟩⟩

/-- C7: if every key of Members is a valid 32-byte hex identifier, then after
MergeInAdminsEvent and after MergeInMembersEvent, successful or not, every key of Members
still is.  Every key after a merge is a key from before or the second entry of a qualifying
tag of the event (long enough, first entry p, valid second entry), so a malformed tag adds
nothing; and acceptance depends on the kind and the timestamp alone, not on the tags. -/
theorem member_keys_stay_valid (group : Group) (evt : Event)
    (hvalid : ∀ key ∈ mapKeys group.Members, IsValid32ByteHex key = true) :
    (∀ key ∈ mapKeys (MergeInAdminsEvent group evt).1.Members, IsValid32ByteHex key = true) ∧
    (∀ key ∈ mapKeys (MergeInMembersEvent group evt).1.Members, IsValid32ByteHex key = true) ∧
    (∀ key ∈ mapKeys (MergeInAdminsEvent group evt).1.Members,
      key ∈ mapKeys group.Members ∨ ∃ tag ∈ evt.Tags, namesAdmin tag key = true) ∧
    (∀ key ∈ mapKeys (MergeInMembersEvent group evt).1.Members,
      key ∈ mapKeys group.Members ∨ ∃ tag ∈ evt.Tags, namesMember tag key = true) ∧
    (evt.Kind = KindSimpleGroupAdmins → group.LastAdminsUpdate ≤ evt.CreatedAt →
      (MergeInAdminsEvent group evt).2 = none) ∧
    (evt.Kind = KindSimpleGroupMembers → group.LastMembersUpdate ≤ evt.CreatedAt →
      (MergeInMembersEvent group evt).2 = none) := by
  refine ⟨?_, ?_, admins_merge_keys group evt, members_merge_keys group evt, ?_, ?_⟩
  · intro key h
    rcases admins_merge_keys group evt key h with h1 | ⟨tag, _, hq⟩
    · exact hvalid key h1
    · exact namesAdmin_valid tag key hq
  · intro key h
    rcases members_merge_keys group evt key h with h1 | ⟨tag, _, hq⟩
    · exact hvalid key h1
    · exact namesMember_valid tag key hq
  · intro hk ht
    exact (admins_ok_iff group evt).2 ⟨hk, ht⟩
  · intro hk ht
    exact (members_ok_iff group evt).2 ⟨hk, ht⟩

/-- Witness of C7: an admins event made of malformed member tags only is accepted by a
group with one valid key, and the keys stay valid. -/
theorem member_keys_stay_valid_witness :
    (∀ key ∈ mapKeys sampleGroup.Members, IsValid32ByteHex key = true) ∧
      (∀ key ∈ mapKeys (MergeInAdminsEvent sampleGroup noisyAdminsEvent).1.Members,
        IsValid32ByteHex key = true) ∧
      (MergeInAdminsEvent sampleGroup noisyAdminsEvent).2 = none :=
  ⟨by decide, (member_keys_stay_valid sampleGroup noisyAdminsEvent (by decide)).1,
    (member_keys_stay_valid sampleGroup noisyAdminsEvent (by decide)).2.2.2.2.1 rfl
      (by decide)⟩

/-! ### C8, C9, C10: the Roles written by the admins merge -/

/-- C8, the code at the failing input: merged into a fresh group, the tag
`["p", memberA, "Alice", "manage"]` leaves `memberA` with the permissions Alice and manage,
and the three-entry tag `["p", memberB, "Bob"]` leaves `memberB` with the permission Bob:
the loop over `tag[2:]` also stores the display name as a permission, where the claim
counts the entries from the fourth position onward only. -/
theorem admins_merge_stores_name_as_permission :
    (MergeInAdminsEvent (NewGroup "g1") aliceAdminsEvent).2 = none ∧
      mapLookup (NewGroup "g1").Members memberA = none ∧
      permissionsOf (MergeInAdminsEvent (NewGroup "g1") aliceAdminsEvent).1.Members memberA
        = ["Alice", "manage"] ∧
      ["p", memberA, "Alice", "manage"].drop 3 = ["manage"] ∧
      (MergeInAdminsEvent (NewGroup "g1") bobAdminsEvent).2 = none ∧
      permissionsOf (MergeInAdminsEvent (NewGroup "g1") bobAdminsEvent).1.Members memberB
        = ["Bob"] ∧
      ["p", memberB, "Bob"].drop 3 = [] := by
  decide

/-- C9 as stated fails: after the accepted admins event stamped 10 that grants `memberA`
permission A and the accepted, newer admins event stamped 20 that lists `memberA` with
permission B only, the Role of `memberA` still holds A. -/
theorem permission_survives_newer_admins_event :
    (MergeInAdminsEvent (NewGroup "g1") grantEventA).2 = none ∧
      (MergeInAdminsEvent (MergeInAdminsEvent (NewGroup "g1") grantEventA).1 grantEventB).2
        = none ∧
      grantEventA.CreatedAt < grantEventB.CreatedAt ∧
      grantEventB.Tags = [["d", "g1"], ["p", memberA, "Alice", "B"]] ∧
      "A" ∈ permissionsOf
        (MergeInAdminsEvent (MergeInAdminsEvent (NewGroup "g1") grantEventA).1
          grantEventB).1.Members memberA := by
  decide

/-- C9, amended: permissions carry over across admins events.  If an accepted admins event
has a qualifying tag naming M that grants permission a, and a later accepted admins event
has a qualifying tag naming M that lists permission b, then after both merges the Role of
M holds b and still holds a. -/
theorem admins_permissions_carry_over (group : Group) (evt1 evt2 : Event) (member : String)
    (tag1 tag2 : Tag) (a b : Permission)
    (hok1 : (MergeInAdminsEvent group evt1).2 = none)
    (hok2 : (MergeInAdminsEvent (MergeInAdminsEvent group evt1).1 evt2).2 = none)
    (hmem1 : tag1 ∈ evt1.Tags) (hq1 : namesAdmin tag1 member = true) (ha : a ∈ tag1.drop 3)
    (hmem2 : tag2 ∈ evt2.Tags) (hq2 : namesAdmin tag2 member = true) (hb : b ∈ tag2.drop 3) :
    a ∈ permissionsOf
        (MergeInAdminsEvent (MergeInAdminsEvent group evt1).1 evt2).1.Members member ∧
      b ∈ permissionsOf
        (MergeInAdminsEvent (MergeInAdminsEvent group evt1).1 evt2).1.Members member := by
  obtain ⟨hk1, ht1⟩ := (admins_ok_iff group evt1).1 hok1
  obtain ⟨hk2, ht2⟩ := (admins_ok_iff _ evt2).1 hok2
  have hdrop : ∀ (tag : Tag) (p : Permission), p ∈ tag.drop 3 → p ∈ tag.drop 2 := by
    intro tag p hp
    have h3 : tag.drop 3 = (tag.drop 2).drop 1 := by simp
    rw [h3] at hp
    exact List.mem_of_mem_drop hp
  have hfirst : a ∈ permissionsOf (MergeInAdminsEvent group evt1).1.Members member := by
    rw [admins_accepted group evt1 hk1 ht1]
    exact (foldl_mergeAdminsTag_permissionsOf evt1.Tags group.Members member a).2
      (Or.inr ⟨tag1, hmem1, hq1, hdrop tag1 a ha⟩)
  rw [admins_accepted _ evt2 hk2 ht2]
  constructor
  · exact (foldl_mergeAdminsTag_permissionsOf evt2.Tags _ member a).2 (Or.inl hfirst)
  · exact (foldl_mergeAdminsTag_permissionsOf evt2.Tags _ member b).2
      (Or.inr ⟨tag2, hmem2, hq2, hdrop tag2 b hb⟩)

/-- Witness of the amended C9: permission A granted at time 10 and permission B listed at
time 20 are both held afterwards. -/
theorem admins_permissions_carry_over_witness :
    "A" ∈ permissionsOf
        (MergeInAdminsEvent (MergeInAdminsEvent (NewGroup "g1") grantEventA).1
          grantEventB).1.Members memberA ∧
      "B" ∈ permissionsOf
        (MergeInAdminsEvent (MergeInAdminsEvent (NewGroup "g1") grantEventA).1
          grantEventB).1.Members memberA :=
  admins_permissions_carry_over (NewGroup "g1") grantEventA grantEventB memberA
    ["p", memberA, "Alice", "A"] ["p", memberA, "Alice", "B"] "A" "B"
    (by decide) (by decide) (by decide) (by decide) (by decide) (by decide) (by decide)
    (by decide)

/-- C10 as stated fails: an accepted admins event names `memberA` in two qualifying tags,
first as Alice and last as Bob; afterwards the Role name is Alice, not the third entry of
the last qualifying tag. -/
theorem role_name_is_not_taken_from_last_tag :
    (MergeInAdminsEvent (NewGroup "g1") renamingEvent).2 = none ∧
      ((renamingEvent.Tags.filter (fun tag => namesAdmin tag memberA)).getLast?.bind
        (fun tag => tag[2]?)) = some "Bob" ∧
      roleNameOf (MergeInAdminsEvent (NewGroup "g1") renamingEvent).1.Members memberA
        = some "Alice" := by
  decide

/-- C10, amended: after an accepted admins event, an identifier M named by at least one
qualifying tag has a Role; its name is the name of the Role M had before the merge when M
had one, and otherwise the third entry of the first qualifying tag naming M. -/
theorem admins_role_name_is_set_once (group : Group) (evt : Event) (member : String)
    (hok : (MergeInAdminsEvent group evt).2 = none)
    (hq : ∃ tag ∈ evt.Tags, namesAdmin tag member = true) :
    ∃ first, evt.Tags.find? (fun tag => namesAdmin tag member) = some first ∧
      (∀ name, roleNameOf group.Members member = some name →
        roleNameOf (MergeInAdminsEvent group evt).1.Members member = some name) ∧
      (roleNameOf group.Members member = none →
        roleNameOf (MergeInAdminsEvent group evt).1.Members member = first[2]?) := by
  obtain ⟨hk, ht⟩ := (admins_ok_iff group evt).1 hok
  obtain ⟨tag, hmem, hnames⟩ := hq
  cases hfind : evt.Tags.find? (fun tag => namesAdmin tag member) with
  | none =>
    have h := List.find?_eq_none.1 hfind tag hmem
    exact absurd hnames h
  | some first =>
    refine ⟨first, rfl, ?_, ?_⟩
    · intro name hname
      rw [admins_accepted group evt hk ht]
      show roleNameOf (evt.Tags.foldl mergeAdminsTag group.Members) member = some name
      rw [foldl_mergeAdminsTag_roleNameOf, hname]
    · intro hnone
      rw [admins_accepted group evt hk ht]
      show roleNameOf (evt.Tags.foldl mergeAdminsTag group.Members) member = first[2]?
      rw [foldl_mergeAdminsTag_roleNameOf, hnone]
      have hfirst : namesAdmin first member = true := by
        have := List.find?_some hfind
        simpa using this
      have hlen : 2 < first.length := by
        simp [namesAdmin] at hfirst
        omega
      simp [hfind, List.getD_eq_getElem?_getD, List.getElem?_eq_getElem hlen]

/-- Witness of the amended C10: `memberA`, a stranger to the fresh group, is named Alice
after the first of its two tags. -/
theorem admins_role_name_is_set_once_witness :
    ∃ first, renamingEvent.Tags.find? (fun tag => namesAdmin tag memberA) = some first ∧
      (∀ name, roleNameOf (NewGroup "g1").Members memberA = some name →
        roleNameOf (MergeInAdminsEvent (NewGroup "g1") renamingEvent).1.Members memberA
          = some name) ∧
      (roleNameOf (NewGroup "g1").Members memberA = none →
        roleNameOf (MergeInAdminsEvent (NewGroup "g1") renamingEvent).1.Members memberA
          = first[2]?) :=
  admins_role_name_is_set_once (NewGroup "g1") renamingEvent memberA (by decide)
    ⟨["p", memberA, "Alice"], by decide, by decide⟩

/-! ### C11, C12, C13: what an accepted metadata event writes -/

theorem tagMatches_value (name : String) (hname : name ≠ "") (tag : Tag) :
    tagMatches tag [name, ""] = isValueTag name tag := by
  rcases tag with _ | ⟨t0, _ | ⟨t1, rest⟩⟩
  · simp [tagMatches, isValueTag]
  · simp [tagMatches, isValueTag]
  · by_cases h : t0 = name <;> simp [tagMatches, isValueTag, hname, h]

theorem tagMatches_marker (name : String) (hname : name ≠ "") (tag : Tag) :
    tagMatches tag [name] = isMarkerTag name tag := by
  rcases tag with _ | ⟨t0, rest⟩
  · simp [tagMatches, isMarkerTag]
  · by_cases h : t0 = name <;> simp [tagMatches, isMarkerTag, hname, h]

theorem getFirst_value (name : String) (hname : name ≠ "") (tags : Tags) :
    GetFirst tags [name, ""] = tags.find? (isValueTag name) := by
  unfold GetFirst
  congr 1
  funext tag
  exact tagMatches_value name hname tag

theorem getFirst_marker (name : String) (hname : name ≠ "") (tags : Tags) :
    (GetFirst tags [name]).isSome = tags.any (isMarkerTag name) := by
  unfold GetFirst
  induction tags with
  | nil => rfl
  | cons tag rest ih =>
    simp only [tagMatches_marker name hname] at ih ⊢
    cases h : isMarkerTag name tag <;> simp [List.find?, h, ih]

theorem getFirst_value_none (name : String) (hname : name ≠ "") (tags : Tags)
    (h : ∀ tag ∈ tags, isMarkerTag name tag = false) : GetFirst tags [name, ""] = none := by
  rw [getFirst_value name hname, List.find?_eq_none]
  intro tag hmem
  have h1 := h tag hmem
  simp only [isMarkerTag] at h1
  simp [isValueTag, h1]

/-- C11: after an accepted metadata event, Name is the second entry of the first tag that
has at least 2 entries and first entry `name`, and is the ID of the group when the event
has no such tag; the previous Name plays no part. -/
theorem metadata_merge_sets_name (group : Group) (evt : Event)
    (hok : (MergeInMetadataEvent group evt).2 = none) :
    (MergeInMetadataEvent group evt).1.Name =
      match evt.Tags.find? (isValueTag "name") with
      | some tag => tag.getD 1 ""
      | none => group.ID := by
  obtain ⟨hk, ht⟩ := (metadata_ok_iff group evt).1 hok
  rw [metadata_accepted group evt hk ht, getFirst_value "name" (by decide)]
  cases evt.Tags.find? (isValueTag "name") <;> rfl

/-- Witness of C11, the scenario of the spec: the group with only its ID set meets the
metadata event stamped 100 with tags d, name Test and private; afterwards its Name is Test,
it is private and its metadata are stamped 100; the metadata event stamped 50 that follows
is rejected and the Name stays Test. -/
theorem metadata_merge_sets_name_witness :
    (MergeInMetadataEvent bareGroup metadataEventAt100).1.Name = "Test" ∧
      (MergeInMetadataEvent bareGroup metadataEventAt100).1.Private = true ∧
      (MergeInMetadataEvent bareGroup metadataEventAt100).1.LastMetadataUpdate = 100 ∧
      (MergeInMetadataEvent (MergeInMetadataEvent bareGroup metadataEventAt100).1
        metadataEventAt50).2 = some (MergeError.staleUpdate 50 100) ∧
      (MergeInMetadataEvent (MergeInMetadataEvent bareGroup metadataEventAt100).1
        metadataEventAt50).1.Name = "Test" :=
  ⟨metadata_merge_sets_name bareGroup metadataEventAt100 (by decide), by decide, by decide,
    by decide, by decide⟩

/-- C12 as stated fails: a group with About `about us` and Picture `pic.png` accepts a
metadata event that carries neither an about nor a picture tag, and keeps both values. -/
theorem about_and_picture_survive_event_without_their_tags :
    (MergeInMetadataEvent closedGroup publicEvent).2 = none ∧
      (∀ tag ∈ publicEvent.Tags, isMarkerTag "about" tag = false) ∧
      (∀ tag ∈ publicEvent.Tags, isMarkerTag "picture" tag = false) ∧
      (MergeInMetadataEvent closedGroup publicEvent).1.About = "about us" ∧
      (MergeInMetadataEvent closedGroup publicEvent).1.Picture = "pic.png" := by
  decide

/-- C12, amended: omitted optional tags leave the field alone.  After an accepted metadata
event that carries no tag with first entry `about`, About is what the group held before
the merge, and after one that carries no tag with first entry `picture`, Picture is what
the group held before the merge. -/
theorem omitted_about_and_picture_are_kept (group : Group) (evt : Event)
    (hok : (MergeInMetadataEvent group evt).2 = none) :
    ((∀ tag ∈ evt.Tags, isMarkerTag "about" tag = false) →
      (MergeInMetadataEvent group evt).1.About = group.About) ∧
    ((∀ tag ∈ evt.Tags, isMarkerTag "picture" tag = false) →
      (MergeInMetadataEvent group evt).1.Picture = group.Picture) := by
  obtain ⟨hk, ht⟩ := (metadata_ok_iff group evt).1 hok
  rw [metadata_accepted group evt hk ht]
  constructor
  · intro h
    simp [getFirst_value_none "about" (by decide) evt.Tags h]
  · intro h
    simp [getFirst_value_none "picture" (by decide) evt.Tags h]

/-- Witness of the amended C12: the event without about and picture tags leaves About and
Picture of the group as they were. -/
theorem omitted_about_and_picture_are_kept_witness :
    (MergeInMetadataEvent closedGroup publicEvent).1.About = closedGroup.About ∧
      (MergeInMetadataEvent closedGroup publicEvent).1.Picture = closedGroup.Picture :=
  ⟨(omitted_about_and_picture_are_kept closedGroup publicEvent (by decide)).1 (by decide),
    (omitted_about_and_picture_are_kept closedGroup publicEvent (by decide)).2 (by decide)⟩

/-- C13 as stated fails: a private and closed group accepts a metadata event that carries
the public and open tags and no private or closed marker, and stays private and closed. -/
theorem private_group_stays_private_without_marker :
    (MergeInMetadataEvent closedGroup publicEvent).2 = none ∧
      publicEvent.Tags.any (isMarkerTag "private") = false ∧
      publicEvent.Tags.any (isMarkerTag "closed") = false ∧
      (MergeInMetadataEvent closedGroup publicEvent).1.Private = true ∧
      (MergeInMetadataEvent closedGroup publicEvent).1.Closed = true := by
  decide

/-- C13, amended: the flags are only ever raised.  After an accepted metadata event, Private
is true if and only if the group was private before the merge or the event carries a tag
with first entry `private`, and Closed is true if and only if the group was closed before
the merge or the event carries a tag with first entry `closed`. -/
theorem metadata_merge_only_raises_flags (group : Group) (evt : Event)
    (hok : (MergeInMetadataEvent group evt).2 = none) :
    ((MergeInMetadataEvent group evt).1.Private = true ↔
      group.Private = true ∨ ∃ tag ∈ evt.Tags, isMarkerTag "private" tag = true) ∧
    ((MergeInMetadataEvent group evt).1.Closed = true ↔
      group.Closed = true ∨ ∃ tag ∈ evt.Tags, isMarkerTag "closed" tag = true) := by
  obtain ⟨hk, ht⟩ := (metadata_ok_iff group evt).1 hok
  rw [metadata_accepted group evt hk ht]
  constructor
  · simp [getFirst_marker "private" (by decide)]
  · simp [getFirst_marker "closed" (by decide)]

/-- Witness of the amended C13: the bare group becomes private through the private marker
of the event stamped 100 and stays open. -/
theorem metadata_merge_only_raises_flags_witness :
    ((MergeInMetadataEvent bareGroup metadataEventAt100).1.Private = true ↔
      bareGroup.Private = true ∨
        ∃ tag ∈ metadataEventAt100.Tags, isMarkerTag "private" tag = true) ∧
    ((MergeInMetadataEvent bareGroup metadataEventAt100).1.Closed = true ↔
      bareGroup.Closed = true ∨
        ∃ tag ∈ metadataEventAt100.Tags, isMarkerTag "closed" tag = true) :=
  metadata_merge_only_raises_flags bareGroup metadataEventAt100 (by decide)

/-! ### C14 to C17: the three projections -/

/-- C14, the code at the failing input: for the group with Name Test and About `about us`,
`ToMetadataEvent` emits the about tag with the Name as its value, `["about", "Test"]`, and
no tag `["about", "about us"]`; the name and picture tags and the Content are as claimed. -/
theorem metadata_projection_about_tag_carries_name :
    fullGroup.Name = "Test" ∧ fullGroup.About = "about us" ∧
      (ToMetadataEvent fullGroup).Tags =
        [["d", "g1"], ["name", "Test"], ["about", "Test"], ["picture", "pic.png"],
          ["private"], ["open"]] ∧
      ["about", fullGroup.About] ∉ (ToMetadataEvent fullGroup).Tags ∧
      (ToMetadataEvent fullGroup).Content = "about us" := by
  decide

/-- C15: `ToMetadataEvent` returns an event of the group-metadata kind stamped with
LastMetadataUpdate whose first tag is `["d", ID]` and whose tags hold exactly one of
`["private"]` and `["public"]`, `["private"]` exactly for a private group, and exactly one
of `["closed"]` and `["open"]`, `["closed"]` exactly for a closed group.  The method has a
value receiver and the embedding is a function of the group, which it cannot modify. -/
theorem metadata_projection_kind_stamp_and_flags (group : Group) :
    (ToMetadataEvent group).Kind = KindSimpleGroupMetadata ∧
      (ToMetadataEvent group).CreatedAt = group.LastMetadataUpdate ∧
      (ToMetadataEvent group).Tags.head? = some ["d", group.ID] ∧
      (ToMetadataEvent group).Tags.count ["private"]
        + (ToMetadataEvent group).Tags.count ["public"] = 1 ∧
      (["private"] ∈ (ToMetadataEvent group).Tags ↔ group.Private = true) ∧
      (ToMetadataEvent group).Tags.count ["closed"]
        + (ToMetadataEvent group).Tags.count ["open"] = 1 ∧
      (["closed"] ∈ (ToMetadataEvent group).Tags ↔ group.Closed = true) := by
  refine ⟨rfl, rfl, ?_, ?_, ?_, ?_, ?_⟩ <;>
    by_cases h1 : group.Name = "" <;> by_cases h2 : group.About = "" <;>
    by_cases h3 : group.Picture = "" <;> cases h4 : group.Private <;>
    cases h5 : group.Closed <;>
    simp [ToMetadataEvent, List.count_cons, h1, h2, h3, h4, h5]

theorem foldl_adminTag_eq (m : MemberMap) (start : Tags) :
    m.foldl adminTag start = start ++ m.filterMap adminTagOf := by
  induction m generalizing start with
  | nil => simp
  | cons e rest ih =>
    obtain ⟨k0, w⟩ := e
    rw [List.foldl_cons, ih]
    cases w <;> simp [adminTag, adminTagOf, List.filterMap_cons]

theorem foldl_memberTag_eq (m : MemberMap) (start : Tags) :
    m.foldl (fun tags entry => tags ++ [["p", entry.1]]) start =
      start ++ m.map (fun entry => ["p", entry.1]) := by
  induction m generalizing start with
  | nil => simp
  | cons e rest ih =>
    rw [List.foldl_cons, ih]
    simp

/-- C16: `ToAdminsEvent` returns an event of the group-admins kind stamped with
LastAdminsUpdate whose first tag is `["d", ID]` and whose remaining tags are, in the order
in which Members is visited, one tag per member with a non-nil Role and none for a member
with the nil Role; the tag of an admin is `p`, the identifier, the Role name and then the
permission strings of the Role, each as often as the permission set holds it, that is
once. -/
theorem admins_projection_lists_admins (group : Group) :
    (ToAdminsEvent group).Kind = KindSimpleGroupAdmins ∧
      (ToAdminsEvent group).CreatedAt = group.LastAdminsUpdate ∧
      (ToAdminsEvent group).Tags = ["d", group.ID] :: group.Members.filterMap adminTagOf ∧
      (∀ member, adminTagOf (member, EmptyRole) = none) ∧
      (∀ member role, ∃ tag, adminTagOf (member, some role) = some tag ∧
        tag.take 3 = ["p", member, role.Name] ∧
        tag.drop 3 = role.Permissions.getD [] ∧
        ((role.Permissions.getD []).Nodup →
          ∀ perm ∈ role.Permissions.getD [], (tag.drop 3).count perm = 1)) := by
  refine ⟨rfl, rfl, ?_, fun _ => rfl, ?_⟩
  · simp [ToAdminsEvent, foldl_adminTag_eq]
  · intro member role
    refine ⟨_, rfl, by simp, by simp, ?_⟩
    intro hnodup perm hperm
    simpa using List.count_eq_one_of_mem hnodup hperm

/-- Witness of C16: the admin of the sample group, Alice with the permission manage, gets
the tag p, identifier, Alice, manage, in which manage stands once. -/
theorem admins_projection_lists_admins_witness :
    ∃ tag, adminTagOf (memberA, some { Name := "Alice", Permissions := some ["manage"] })
        = some tag ∧
      tag.take 3 = ["p", memberA, "Alice"] ∧ tag.drop 3 = ["manage"] ∧
      ∀ perm ∈ ["manage"], (tag.drop 3).count perm = 1 := by
  obtain ⟨tag, h1, h2, h3, h4⟩ :=
    (admins_projection_lists_admins fullGroup).2.2.2.2 memberA
      { Name := "Alice", Permissions := some ["manage"] }
  exact ⟨tag, h1, h2, h3, h4 (by decide)⟩

/-- C17: `ToMembersEvent` returns an event of the group-members kind stamped with
LastMembersUpdate whose first tag is `["d", ID]` and whose remaining tags are, in the order
in which Members is visited, one `["p", identifier]` tag per key of Members, whatever its
Role; the event has 1 + |Members| tags. -/
theorem members_projection_lists_every_key (group : Group) :
    (ToMembersEvent group).Kind = KindSimpleGroupMembers ∧
      (ToMembersEvent group).CreatedAt = group.LastMembersUpdate ∧
      (ToMembersEvent group).Tags =
        ["d", group.ID] :: (mapKeys group.Members).map (fun key => ["p", key]) ∧
      (ToMembersEvent group).Tags.length = 1 + group.Members.length := by
  refine ⟨rfl, rfl, ?_, ?_⟩
  · simp [ToMembersEvent, foldl_memberTag_eq, mapKeys]
  · simp [ToMembersEvent, foldl_memberTag_eq]
    omega

/-! ### C18: merging the same event twice -/

theorem mapStore_self (m : MemberMap) (key : String) (v : Option Role)
    (h : mapLookup m key = some v) : mapStore m key v = m := by
  induction m with
  | nil => simp [mapLookup] at h
  | cons e rest ih =>
    obtain ⟨k0, w⟩ := e
    by_cases hk : k0 = key
    · subst hk
      simp [mapLookup] at h
      simp [mapStore, h]
    · simp [mapLookup, hk] at h
      simp [mapStore, hk, ih h]

theorem foldl_addPermission_of_mem (xs ps : List Permission) (h : ∀ x ∈ xs, x ∈ ps) :
    xs.foldl addPermission ps = ps := by
  induction xs with
  | nil => rfl
  | cons x rest ih =>
    have hx : x ∈ ps := h x (List.mem_cons_self x rest)
    rw [List.foldl_cons]
    simp only [addPermission, hx, if_true]
    exact ih (fun y hy => h y (List.mem_cons_of_mem x hy))

/-- Once a member has a Role that holds every entry of a tag from the third position on,
further steps of the admins loop keep it so. -/
theorem mergeAdminsTag_keeps_settled (m : MemberMap) (tag other : Tag) (key : String)
    (h : ∃ name perms, mapLookup m key = some (some { Name := name, Permissions := some perms })
      ∧ ∀ p ∈ tag.drop 2, p ∈ perms) :
    ∃ name perms,
      mapLookup (mergeAdminsTag m other) key
        = some (some { Name := name, Permissions := some perms }) ∧
      ∀ p ∈ tag.drop 2, p ∈ perms := by
  obtain ⟨name, perms, hlook, hsub⟩ := h
  rw [mergeAdminsTag_lookup]
  by_cases hq : namesAdmin other key = true
  · rw [if_pos hq]
    refine ⟨_, _, rfl, ?_⟩
    intro p hp
    rw [mem_foldl_addPermission]
    left
    simp [permissionsOf, mapIndex, hlook, hsub p hp]
  · rw [if_neg hq]
    exact ⟨name, perms, hlook, hsub⟩

theorem mergeAdminsTag_settles (m : MemberMap) (tag : Tag) (key : String)
    (hq : namesAdmin tag key = true) :
    ∃ name perms,
      mapLookup (mergeAdminsTag m tag) key
        = some (some { Name := name, Permissions := some perms }) ∧
      ∀ p ∈ tag.drop 2, p ∈ perms := by
  rw [mergeAdminsTag_lookup, if_pos hq]
  refine ⟨_, _, rfl, ?_⟩
  intro p hp
  rw [mem_foldl_addPermission]
  exact Or.inr hp

theorem foldl_mergeAdminsTag_keeps_settled (tags : Tags) (m : MemberMap) (tag : Tag)
    (key : String)
    (h : ∃ name perms, mapLookup m key = some (some { Name := name, Permissions := some perms })
      ∧ ∀ p ∈ tag.drop 2, p ∈ perms) :
    ∃ name perms,
      mapLookup (tags.foldl mergeAdminsTag m) key
        = some (some { Name := name, Permissions := some perms }) ∧
      ∀ p ∈ tag.drop 2, p ∈ perms := by
  induction tags generalizing m with
  | nil => exact h
  | cons other rest ih =>
    rw [List.foldl_cons]
    exact ih _ (mergeAdminsTag_keeps_settled m tag other key h)

theorem foldl_mergeAdminsTag_settles (tags : Tags) (m : MemberMap) (tag : Tag) (key : String)
    (hmem : tag ∈ tags) (hq : namesAdmin tag key = true) :
    ∃ name perms,
      mapLookup (tags.foldl mergeAdminsTag m) key
        = some (some { Name := name, Permissions := some perms }) ∧
      ∀ p ∈ tag.drop 2, p ∈ perms := by
  induction tags generalizing m with
  | nil => simp at hmem
  | cons other rest ih =>
    rw [List.foldl_cons]
    rcases List.mem_cons.1 hmem with h | h
    · subst h
      exact foldl_mergeAdminsTag_keeps_settled rest _ tag key (mergeAdminsTag_settles m tag key hq)
    · exact ih _ h

theorem mergeAdminsTag_fixed (m : MemberMap) (tag : Tag) (key : String)
    (hq : namesAdmin tag key = true)
    (h : ∃ name perms, mapLookup m key = some (some { Name := name, Permissions := some perms })
      ∧ ∀ p ∈ tag.drop 2, p ∈ perms) :
    mergeAdminsTag m tag = m := by
  obtain ⟨name, perms, hlook, hsub⟩ := h
  rw [mergeAdminsTag_of_names m tag key hq]
  have hname : roleNameOf m key = some name := by simp [roleNameOf, mapIndex, hlook]
  have hperms : permissionsOf m key = perms := by simp [permissionsOf, mapIndex, hlook]
  rw [hname, hperms, foldl_addPermission_of_mem _ _ hsub]
  exact mapStore_self m key _ hlook

theorem foldl_fixed_of_steps {α : Type} (f : MemberMap → α → MemberMap) (xs : List α)
    (m : MemberMap) (h : ∀ x ∈ xs, f m x = m) : xs.foldl f m = m := by
  induction xs with
  | nil => rfl
  | cons x rest ih =>
    rw [List.foldl_cons, h x (List.mem_cons_self x rest)]
    exact ih (fun y hy => h y (List.mem_cons_of_mem x hy))

/-- The admins loop run a second time over the same tags changes nothing. -/
theorem foldl_mergeAdminsTag_idempotent (tags : Tags) (m : MemberMap) :
    tags.foldl mergeAdminsTag (tags.foldl mergeAdminsTag m) = tags.foldl mergeAdminsTag m := by
  apply foldl_fixed_of_steps
  intro tag hmem
  by_cases hex : ∃ key, namesAdmin tag key = true
  · obtain ⟨key, hq⟩ := hex
    exact mergeAdminsTag_fixed _ tag key hq (foldl_mergeAdminsTag_settles tags m tag key hmem hq)
  · apply mergeAdminsTag_of_none
    intro key
    cases h : namesAdmin tag key
    · rfl
    · exact absurd ⟨key, h⟩ hex

/-- The members loop run a second time over the same tags changes nothing. -/
theorem foldl_mergeMembersTag_idempotent (tags : Tags) (m : MemberMap) :
    tags.foldl mergeMembersTag (tags.foldl mergeMembersTag m)
      = tags.foldl mergeMembersTag m := by
  apply foldl_fixed_of_steps
  intro tag hmem
  rcases mergeMembersTag_cases (tags.foldl mergeMembersTag m) tag with h | ⟨key, hq, hnone, _⟩
  · exact h
  · exfalso
    rw [foldl_mergeMembersTag_lookup] at hnone
    by_cases hm : mapLookup m key = none
    · rw [if_pos ⟨hm, tag, hmem, hq⟩] at hnone
      cases hnone
    · rw [if_neg (fun hc => hm hc.1)] at hnone
      exact hm hnone

/-- C18: idempotent replay.  For each of the three merges, if merging an event into a
group succeeds, merging the same event into the resulting group succeeds again and leaves
that group as it is: the same display fields and flags, the same timestamps, the same
member identifiers with the same Role names and permission sets. -/
theorem merging_an_event_twice_changes_nothing (group : Group) (evt : Event) :
    ((MergeInMetadataEvent group evt).2 = none →
      MergeInMetadataEvent (MergeInMetadataEvent group evt).1 evt
        = ((MergeInMetadataEvent group evt).1, none)) ∧
    ((MergeInAdminsEvent group evt).2 = none →
      MergeInAdminsEvent (MergeInAdminsEvent group evt).1 evt
        = ((MergeInAdminsEvent group evt).1, none)) ∧
    ((MergeInMembersEvent group evt).2 = none →
      MergeInMembersEvent (MergeInMembersEvent group evt).1 evt
        = ((MergeInMembersEvent group evt).1, none)) := by
  refine ⟨?_, ?_, ?_⟩
  · intro hok
    obtain ⟨hk, ht⟩ := (metadata_ok_iff group evt).1 hok
    have h1 := metadata_accepted group evt hk ht
    have h2 := metadata_accepted (MergeInMetadataEvent group evt).1 evt hk
      (by rw [h1])
    rw [h2, h1]
    cases GetFirst evt.Tags ["name", ""] <;> cases GetFirst evt.Tags ["about", ""] <;>
      cases GetFirst evt.Tags ["picture", ""] <;> cases GetFirst evt.Tags ["private"] <;>
      cases GetFirst evt.Tags ["closed"] <;> simp
  · intro hok
    obtain ⟨hk, ht⟩ := (admins_ok_iff group evt).1 hok
    have h1 := admins_accepted group evt hk ht
    have h2 := admins_accepted (MergeInAdminsEvent group evt).1 evt hk (by rw [h1])
    rw [h2, h1]
    simp [foldl_mergeAdminsTag_idempotent]
  · intro hok
    obtain ⟨hk, ht⟩ := (members_ok_iff group evt).1 hok
    have h1 := members_accepted group evt hk ht
    have h2 := members_accepted (MergeInMembersEvent group evt).1 evt hk (by rw [h1])
    rw [h2, h1]
    simp [foldl_mergeMembersTag_idempotent]

/-- Witness of C18: a metadata event, an admins event that names one member twice and a
members event are each merged twice into a fresh group. -/
theorem merging_an_event_twice_changes_nothing_witness :
    MergeInMetadataEvent (MergeInMetadataEvent (NewGroup "g1") metadataEventAt100).1
        metadataEventAt100
        = ((MergeInMetadataEvent (NewGroup "g1") metadataEventAt100).1, none) ∧
      MergeInAdminsEvent (MergeInAdminsEvent (NewGroup "g1") renamingEvent).1 renamingEvent
        = ((MergeInAdminsEvent (NewGroup "g1") renamingEvent).1, none) ∧
      MergeInMembersEvent (MergeInMembersEvent (NewGroup "g1") rosterEvent).1 rosterEvent
        = ((MergeInMembersEvent (NewGroup "g1") rosterEvent).1, none) :=
  ⟨(merging_an_event_twice_changes_nothing (NewGroup "g1") metadataEventAt100).1 (by decide),
    (merging_an_event_twice_changes_nothing (NewGroup "g1") renamingEvent).2.1 (by decide),
    (merging_an_event_twice_changes_nothing (NewGroup "g1") rosterEvent).2.2 (by decide)⟩

/-! ### C20: each merge writes its own facet only -/

/-- C20: facet independence.  A successful MergeInMetadataEvent leaves ID, the Members map,
LastAdminsUpdate and LastMembersUpdate as they were; a successful MergeInAdminsEvent leaves
ID, Name, About, Picture, Private, Closed, LastMetadataUpdate and LastMembersUpdate as they
were; a successful MergeInMembersEvent leaves ID, Name, About, Picture, Private, Closed,
LastMetadataUpdate and LastAdminsUpdate as they were. -/
theorem merge_leaves_other_facets_alone (group : Group) (evt : Event) :
    ((MergeInMetadataEvent group evt).2 = none →
      (MergeInMetadataEvent group evt).1.ID = group.ID ∧
      (MergeInMetadataEvent group evt).1.Members = group.Members ∧
      (MergeInMetadataEvent group evt).1.LastAdminsUpdate = group.LastAdminsUpdate ∧
      (MergeInMetadataEvent group evt).1.LastMembersUpdate = group.LastMembersUpdate) ∧
    ((MergeInAdminsEvent group evt).2 = none →
      (MergeInAdminsEvent group evt).1.ID = group.ID ∧
      (MergeInAdminsEvent group evt).1.Name = group.Name ∧
      (MergeInAdminsEvent group evt).1.About = group.About ∧
      (MergeInAdminsEvent group evt).1.Picture = group.Picture ∧
      (MergeInAdminsEvent group evt).1.Private = group.Private ∧
      (MergeInAdminsEvent group evt).1.Closed = group.Closed ∧
      (MergeInAdminsEvent group evt).1.LastMetadataUpdate = group.LastMetadataUpdate ∧
      (MergeInAdminsEvent group evt).1.LastMembersUpdate = group.LastMembersUpdate) ∧
    ((MergeInMembersEvent group evt).2 = none →
      (MergeInMembersEvent group evt).1.ID = group.ID ∧
      (MergeInMembersEvent group evt).1.Name = group.Name ∧
      (MergeInMembersEvent group evt).1.About = group.About ∧
      (MergeInMembersEvent group evt).1.Picture = group.Picture ∧
      (MergeInMembersEvent group evt).1.Private = group.Private ∧
      (MergeInMembersEvent group evt).1.Closed = group.Closed ∧
      (MergeInMembersEvent group evt).1.LastMetadataUpdate = group.LastMetadataUpdate ∧
      (MergeInMembersEvent group evt).1.LastAdminsUpdate = group.LastAdminsUpdate) := by
  refine ⟨?_, ?_, ?_⟩
  · intro hok
    obtain ⟨hk, ht⟩ := (metadata_ok_iff group evt).1 hok
    rw [metadata_accepted group evt hk ht]
    exact ⟨rfl, rfl, rfl, rfl⟩
  · intro hok
    obtain ⟨hk, ht⟩ := (admins_ok_iff group evt).1 hok
    rw [admins_accepted group evt hk ht]
    exact ⟨rfl, rfl, rfl, rfl, rfl, rfl, rfl, rfl⟩
  · intro hok
    obtain ⟨hk, ht⟩ := (members_ok_iff group evt).1 hok
    rw [members_accepted group evt hk ht]
    exact ⟨rfl, rfl, rfl, rfl, rfl, rfl, rfl, rfl⟩

/-- Witness of C20: the sample group, with an admin and every display field set, accepts a
metadata event, an admins event and a members event stamped 100. -/
theorem merge_leaves_other_facets_alone_witness :
    ((MergeInMetadataEvent fullGroup metadataEventAt100).1.ID = fullGroup.ID ∧
      (MergeInMetadataEvent fullGroup metadataEventAt100).1.Members = fullGroup.Members ∧
      (MergeInMetadataEvent fullGroup metadataEventAt100).1.LastAdminsUpdate
        = fullGroup.LastAdminsUpdate ∧
      (MergeInMetadataEvent fullGroup metadataEventAt100).1.LastMembersUpdate
        = fullGroup.LastMembersUpdate) ∧
    ((MergeInAdminsEvent fullGroup adminsEventAt100).1.ID = fullGroup.ID ∧
      (MergeInAdminsEvent fullGroup adminsEventAt100).1.Name = fullGroup.Name ∧
      (MergeInAdminsEvent fullGroup adminsEventAt100).1.About = fullGroup.About ∧
      (MergeInAdminsEvent fullGroup adminsEventAt100).1.Picture = fullGroup.Picture ∧
      (MergeInAdminsEvent fullGroup adminsEventAt100).1.Private = fullGroup.Private ∧
      (MergeInAdminsEvent fullGroup adminsEventAt100).1.Closed = fullGroup.Closed ∧
      (MergeInAdminsEvent fullGroup adminsEventAt100).1.LastMetadataUpdate
        = fullGroup.LastMetadataUpdate ∧
      (MergeInAdminsEvent fullGroup adminsEventAt100).1.LastMembersUpdate
        = fullGroup.LastMembersUpdate) ∧
    ((MergeInMembersEvent fullGroup membersEventAt100).1.ID = fullGroup.ID ∧
      (MergeInMembersEvent fullGroup membersEventAt100).1.Name = fullGroup.Name ∧
      (MergeInMembersEvent fullGroup membersEventAt100).1.About = fullGroup.About ∧
      (MergeInMembersEvent fullGroup membersEventAt100).1.Picture = fullGroup.Picture ∧
      (MergeInMembersEvent fullGroup membersEventAt100).1.Private = fullGroup.Private ∧
      (MergeInMembersEvent fullGroup membersEventAt100).1.Closed = fullGroup.Closed ∧
      (MergeInMembersEvent fullGroup membersEventAt100).1.LastMetadataUpdate
        = fullGroup.LastMetadataUpdate ∧
      (MergeInMembersEvent fullGroup membersEventAt100).1.LastAdminsUpdate
        = fullGroup.LastAdminsUpdate) :=
  ⟨(merge_leaves_other_facets_alone fullGroup metadataEventAt100).1 (by decide),
    (merge_leaves_other_facets_alone fullGroup adminsEventAt100).2.1 (by decide),
    (merge_leaves_other_facets_alone fullGroup membersEventAt100).2.2 (by decide)⟩

end Nip29

namespace Nip31

open Nip29

/-! ### C19: the alt tag -/

theorem getAltFrom_eq (tags : Tags) :
    getAltFrom tags =
      match tags.find? (isValueTag "alt") with
      | some tag => tag.getD 1 ""
      | none => "" := by
  induction tags with
  | nil => rfl
  | cons tag rest ih =>
    have hcond : (2 ≤ tag.length ∧ tag.getD 0 "" = "alt") ↔ isValueTag "alt" tag = true := by
      rcases tag with _ | ⟨t0, rest2⟩
      · simp [isValueTag]
      · simp [isValueTag]
    by_cases h : isValueTag "alt" tag = true
    · simp only [getAltFrom, hcond.2 h, and_self, if_true, List.find?, h]
    · have h2 : ¬ (2 ≤ tag.length ∧ tag.getD 0 "" = "alt") := fun hc => h (hcond.1 hc)
      have h3 : isValueTag "alt" tag = false := by simpa using h
      simp only [getAltFrom, h2, if_false, List.find?, h3, ih]

/-- C19: `GetAlt` returns, for every event, the second entry of the first tag that has at
least 2 entries and first entry `alt`, and the empty string when the event has no such tag;
an `alt` tag of a single entry is passed over, so that no tag is indexed out of range. -/
theorem getAlt_is_second_entry_of_first_alt_tag (event : Event) :
    (GetAlt event =
        match event.Tags.find? (isValueTag "alt") with
        | some tag => tag.getD 1 ""
        | none => "") ∧
      isValueTag "alt" ["alt"] = false ∧
      GetAlt { event with Tags := ["alt"] :: event.Tags } = GetAlt event := by
  refine ⟨getAltFrom_eq event.Tags, by decide, ?_⟩
  simp [GetAlt, getAltFrom]

end Nip31
